import Mathlib

/-!
Shallow embedding of the MRI patch-sampling subsystem of this repository
(`experiments/datasets/MRI/mri.py`, class `MRISegmentation`).

Conventions of the embedding:
* machine integers of the source become `ℤ`; the one narrowing cast in the
  source (`np.int16` inside `__getitem__`) is modelled explicitly by `wrap16`;
* numpy float expressions `np.ceil(a / b)` on integer inputs are modelled by
  exact rational arithmetic (`ceilDiv`);
* a 3D volume is a shape together with a total contents function `ℤ → ℤ → ℤ → ℤ`;
  slicing follows Python/numpy slice semantics (`sliceIndex`, `sliceLen`);
* `np.pad` is modelled by `padVol`, where the mode/constant dependent border
  values are an arbitrary `fill` function (constant fill, edge fill, ... are all
  instances), and the original array sits at offset `pad_low` for every mode;
* the process-wide random generator is modelled by quantifying over the drawn
  offsets: `np.random.choice(overflow + 1)` becomes an arbitrary parameter `r`
  subject to `0 ≤ r ≤ overflow`.
-/

namespace MRI

/-- Integer 3-vector (one component per spatial axis). -/
abbrev I3 := ℤ × ℤ × ℤ

/-- Exact model of `np.ceil(a / b)` for integer `a`, `b`. -/
def ceilDiv (a b : ℤ) : ℤ := ⌈(a : ℚ) / (b : ℚ)⌉

/-- Two's-complement truncation to 16 bits: the effect of casting a Python
integer to `np.int16` (as in `np.array(..., dtype=np.int16)`). -/
def wrap16 (x : ℤ) : ℤ := (x + 32768) % 65536 - 32768

/-- Effective index of a Python slice endpoint `i` on an axis of length `len`:
negative indices count from the end, then the result is clamped to `[0, len]`. -/
def sliceIndex (i len : ℤ) : ℤ := if i < 0 then max 0 (len + i) else min i len

/-- Extent of the Python slice `a : b` (step 1) on an axis of length `len`. -/
def sliceLen (a b len : ℤ) : ℤ := max 0 (sliceIndex b len - sliceIndex a len)

/-- Model of `np.clip(x, lo, hi)` on integers. -/
def clip (x lo hi : ℤ) : ℤ := max lo (min x hi)

/-! ## Patch-grid planning (`MRISegmentation.calc_patch_indices`)

All arithmetic in the source is elementwise over the three axes, so the planner
is embedded one axis at a time and assembled into 3-vectors afterwards. -/

/-- Step 1: `eff_patch_shape = patch_shape - overlap`. -/
def effPatch (patch overlap : ℤ) : ℤ := patch - overlap

/-- Step 2: `n_patches = np.ceil((image_shape - patch_shape) / eff_patch_shape + 1)`,
one axis (`ceil (x + 1) = ceil x + 1`). -/
def nPatches0 (image patch overlap : ℤ) : ℤ :=
  ceilDiv (image - patch) (effPatch patch overlap) + 1

/-- Step 3: `overflow = eff_patch_shape * n_patches - image_shape + overlap`, one axis. -/
def overflow0 (image patch overlap : ℤ) : ℤ :=
  effPatch patch overlap * nPatches0 image patch overlap - image + overlap

/-- The `while extra_patch.any()` loop of the `randomize_offset` branch, one
axis: while `overflow / patch_shape < 0.25` (as exact rationals:
`4 * overflow < patch`), add `eff` to the overflow and one more patch.
The `0 < eff` conjunct makes the recursion well-founded; when `eff ≤ 0` the
source loop would not terminate, a case excluded by the documented
precondition `overlap < patch_shape`. -/
def minOverflowLoop (patch eff ov n : ℤ) : ℤ × ℤ :=
  if h : 4 * ov < patch ∧ 0 < eff then
    minOverflowLoop patch eff (ov + eff) (n + 1)
  else (ov, n)
termination_by (patch - 4 * ov).toNat
decreasing_by simp_wf; omega

/-- The `while extra_patch.any()` loop of the non-randomized branch, one axis:
while `overflow < overlap`, add `eff` to the overflow and one more patch.
Guarded by `0 < eff` exactly as `minOverflowLoop`. -/
def overlapLoop (overlap eff ov n : ℤ) : ℤ × ℤ :=
  if h : ov < overlap ∧ 0 < eff then
    overlapLoop overlap eff (ov + eff) (n + 1)
  else (ov, n)
termination_by (overlap - ov).toNat
decreasing_by simp_wf; omega

/-- Result of planning one axis: `start_index`, `n_patches`, `step_size`
(= `eff_patch_shape`) and the final `overflow`. -/
structure AxisPlan where
  start : ℤ
  n : ℤ
  step : ℤ
  overflow : ℤ
  deriving DecidableEq, Repr

/-- One axis of `calc_patch_indices`.  `r` is the value drawn by
`np.random.choice(max_start_offset + 1)` for this axis (used only when
`randomize = true`); the non-randomized branch computes `start_index` from the
overflow *before* its extra-patch loop, exactly as the source does. -/
def calcAxis (image patch overlap : ℤ) (randomize : Bool) (r : ℤ) : AxisPlan :=
  let eff := effPatch patch overlap
  let n0 := nPatches0 image patch overlap
  let ov0 := overflow0 image patch overlap
  if randomize then
    let p := minOverflowLoop patch eff ov0 n0
    ⟨-r, p.2, eff, p.1⟩
  else
    let s := -(ceilDiv ov0 2)
    let p := overlapLoop overlap eff ov0 n0
    ⟨s, p.2, eff, p.1⟩

/-- The arithmetic progression produced by `np.mgrid[start : start + step * n : step]`
for `step > 0`: the values `start + step * k`, `k = 0, …, n - 1`. -/
def axisStarts (p : AxisPlan) : List ℤ :=
  (List.range p.n.toNat).map (fun k : ℕ => p.start + p.step * (k : ℤ))

/-- Full `calc_patch_indices` on 3-vectors: the flat list of patch start coordinates
(the `mgrid` lattice, axis 0 varying slowest, exactly the `reshape(3, -1).T`
order) together with the per-axis overflow. -/
def calcPatchIndices (image patch overlap : I3) (randomize : Bool) (r : I3) :
    List I3 × I3 :=
  let p0 := calcAxis image.1 patch.1 overlap.1 randomize r.1
  let p1 := calcAxis image.2.1 patch.2.1 overlap.2.1 randomize r.2.1
  let p2 := calcAxis image.2.2 patch.2.2 overlap.2.2 randomize r.2.2
  ((axisStarts p0).flatMap (fun a =>
      (axisStarts p1).flatMap (fun b =>
        (axisStarts p2).map (fun c => (a, b, c)))),
   (p0.overflow, p1.overflow, p2.overflow))

/-! ## Volumes, padding and the dataset state (`MRISegmentation`) -/

/-- Contents of a 3D array: a total function on integer coordinates (only the
values inside the tracked shape are ever observed). -/
def Vol := ℤ → ℤ → ℤ → ℤ

/-- A shaped volume: its shape together with its contents. -/
def SVol := I3 × Vol

/-- Default shaped volume used to totalize list lookups. -/
def dummyVol : SVol := ((0, 0, 0), fun _ _ _ => 0)

/-- Model of `np.pad(v, pad_width, mode=..., constant_values=...)`: the original array
sits at offset `pad_width[:, 0]` (true for every numpy pad mode); the border
values — whatever the mode and constant produce — are modelled by the
arbitrary `fill` function.  `pw = (lows, highs)` per axis. -/
def padVol (sv : SVol) (pw : I3 × I3) (fill : Vol) : SVol :=
  ((sv.1.1 + pw.1.1 + pw.2.1,
    sv.1.2.1 + pw.1.2.1 + pw.2.2.1,
    sv.1.2.2 + pw.1.2.2 + pw.2.2.2),
   fun x y z =>
     if pw.1.1 ≤ x ∧ x < pw.1.1 + sv.1.1 ∧
        pw.1.2.1 ≤ y ∧ y < pw.1.2.1 + sv.1.2.1 ∧
        pw.1.2.2 ≤ z ∧ z < pw.1.2.2 + sv.1.2.2 then
       sv.2 (x - pw.1.1) (y - pw.1.2.1) (z - pw.1.2.2)
     else fill x y z)

/-- The numpy basic slice `arr[a0:b0, a1:b1, a2:b2]` of a shaped volume:
Python slice semantics per axis (`sliceIndex`/`sliceLen`). -/
def sliceVol (sv : SVol) (a b : I3) : SVol :=
  ((sliceLen a.1 b.1 sv.1.1,
    sliceLen a.2.1 b.2.1 sv.1.2.1,
    sliceLen a.2.2 b.2.2 sv.1.2.2),
   fun x y z =>
     sv.2 (sliceIndex a.1 sv.1.1 + x)
          (sliceIndex a.2.1 sv.1.2.1 + y)
          (sliceIndex a.2.2 sv.1.2.2 + z))

/-- The mutable state of an `MRISegmentation` object (the fields the patch
subsystem reads and writes; `class_count` is untouched metadata). -/
structure DState where
  patchShape : I3
  patchOverlap : I3
  randomize : Bool
  data : List SVol
  labels : List SVol
  unpadded : List I3
  padding : List (Option (I3 × I3))
  patchIndices : List (ℕ × I3)

/-- Method `initialize_patch_indices`: rebuild `self.patch_indices` from scratch by
planning every volume, and record `np.stack([overflow, overflow], axis=1)` as
the padding boundary of any volume whose entry is still `None`.  `rs i` is the
triple of random offsets drawn for volume `i` in this pass. -/
def initializePatchIndices (s : DState) (rs : ℕ → I3) : DState :=
  let n := s.data.length
  let plan : ℕ → List I3 × I3 := fun i =>
    calcPatchIndices (s.unpadded.getD i (0, 0, 0)) s.patchShape s.patchOverlap
      s.randomize (rs i)
  { s with
    patchIndices :=
      (List.range n).flatMap (fun i => (plan i).1.map (fun st => (i, st)))
    padding :=
      (List.range s.padding.length).map (fun i =>
        if i < n ∧ s.padding.getD i none = none then
          some ((plan i).2, (plan i).2)
        else s.padding.getD i none) }

/-- One volume as delivered by the (out-of-scope) file-reading step: the
signal channel, the label channel, and their common shape. -/
structure RawVolume where
  shape : I3
  signal : Vol
  label : Vol

/-- The object state right after the h5 read in `__init__`: raw volumes
stored, padding boundaries all `None`, patch index empty. -/
def initState (vols : List RawVolume) (patch overlap : I3) (randomize : Bool) :
    DState :=
  { patchShape := patch
    patchOverlap := overlap
    randomize := randomize
    data := vols.map (fun v => (v.shape, v.signal))
    labels := vols.map (fun v => (v.shape, v.label))
    unpadded := vols.map (fun v => v.shape)
    padding := vols.map (fun _ => none)
    patchIndices := [] }

/-- Constructor `MRISegmentation.__init__` after the h5 read: run the first
`initialize_patch_indices` pass (which fixes the padding boundary), then pad
every signal and label volume by its padding boundary.  `fillS i` / `fillL i`
are the border contents `np.pad` produces for volume `i` under the configured
`pad_mode` / `pad_constant` (the label cast to `np.int64` is the identity here
since label values are already integers). -/
def mkDataset (vols : List RawVolume) (patch overlap : I3) (randomize : Bool)
    (rs : ℕ → I3) (fillS fillL : ℕ → Vol) : DState :=
  let s1 := initializePatchIndices (initState vols patch overlap randomize) rs
  { s1 with
    data := (List.range s1.data.length).map (fun i =>
      match s1.padding.getD i none with
      | some pw => padVol (s1.data.getD i dummyVol) pw (fillS i)
      | none => s1.data.getD i dummyVol)
    labels := (List.range s1.labels.length).map (fun i =>
      match s1.padding.getD i none with
      | some pw => padVol (s1.labels.getD i dummyVol) pw (fillL i)
      | none => s1.labels.getD i dummyVol) }

/-- Any number of per-epoch re-randomizations after construction. -/
def reinits (s : DState) (l : List (ℕ → I3)) : DState :=
  l.foldl initializePatchIndices s

/-- Method `MRISegmentation.__len__`. -/
def dataLen (s : DState) : ℕ := s.patchIndices.length

/-- Method `get_original`: slice the padded volume from `padding_boundary[:, 0]` for
`unpadded_data_shape` voxels on each axis. -/
def getOriginal (s : DState) (i : ℕ) : SVol × SVol :=
  let size := s.unpadded.getD i (0, 0, 0)
  let lo := (s.padding.getD i none).elim (0, 0, 0) Prod.fst
  let hi : I3 := (lo.1 + size.1, lo.2.1 + size.2.1, lo.2.2 + size.2.2)
  (sliceVol (s.data.getD i dummyVol) lo hi,
   sliceVol (s.labels.getD i dummyVol) lo hi)

/-- How `__getitem__` can fail: Python `IndexError` on the list lookup, or an
`assert` failure on the final shape check. -/
inductive GetErr where
  | indexError
  | assertionError
  deriving DecidableEq, Repr

/-- What `__getitem__` returns: signal and label patches (the leading
channel dimension of size 1 added by `np.expand_dims` is dropped; the shape
assertion in the source reads `image_patch[0].shape`, which is `signalShape`
here), the volume index, `patch_index` (start and end rows in unpadded
coordinates) and `patch_valid`. -/
structure PatchResult where
  signalShape : I3
  signal : Vol
  labelShape : I3
  label : Vol
  volIndex : ℕ
  bounds : I3 × I3
  valid : I3 × I3

/-- Method `MRISegmentation.__getitem__`.  The start coordinates are cast to
`np.int16` (`wrap16`); `patch_index_end = patch_index_start + patch_shape` is
computed after int64 promotion, so only the start wraps.  A failed final
`assert` is `GetErr.assertionError`. -/
def getitem (s : DState) (index : ℕ) : Except GetErr PatchResult :=
  match s.patchIndices.get? index with
  | none => .error .indexError
  | some (di, st) =>
    let image := s.data.getD di dummyVol
    let labels := s.labels.getD di dummyVol
    let w : I3 := (wrap16 st.1, wrap16 st.2.1, wrap16 st.2.2)
    let e : I3 := (w.1 + s.patchShape.1, w.2.1 + s.patchShape.2.1,
                   w.2.2 + s.patchShape.2.2)
    let ush := s.unpadded.getD di (0, 0, 0)
    let valid : I3 × I3 :=
      ((clip w.1 0 ush.1 - w.1, clip w.2.1 0 ush.2.1 - w.2.1,
        clip w.2.2 0 ush.2.2 - w.2.2),
       (clip e.1 0 ush.1 - w.1, clip e.2.1 0 ush.2.1 - w.2.1,
        clip e.2.2 0 ush.2.2 - w.2.2))
    let lo := (s.padding.getD di none).elim (0, 0, 0) Prod.fst
    let a : I3 := (w.1 + lo.1, w.2.1 + lo.2.1, w.2.2 + lo.2.2)
    let b : I3 := (e.1 + lo.1, e.2.1 + lo.2.1, e.2.2 + lo.2.2)
    let imgPatch := sliceVol image a b
    let labPatch := sliceVol labels a b
    if imgPatch.1 = s.patchShape ∧ labPatch.1 = s.patchShape then
      .ok ⟨imgPatch.1, imgPatch.2, labPatch.1, labPatch.2, di, (w, e), valid⟩
    else .error .assertionError

/-! ## Arithmetic facts about the planner -/

theorem ceilDiv_le_mul {a b : ℤ} (hb : 0 < b) : a ≤ b * ceilDiv a b := by
  unfold ceilDiv
  have hbq : (0 : ℚ) < (b : ℚ) := by exact_mod_cast hb
  have h : (a : ℚ) / b ≤ (⌈(a : ℚ) / b⌉ : ℚ) := Int.le_ceil _
  rw [div_le_iff₀ hbq] at h
  have h2 : (a : ℚ) ≤ (b : ℚ) * (⌈(a : ℚ) / b⌉ : ℚ) := by linarith
  exact_mod_cast h2

theorem mul_ceilDiv_lt {a b : ℤ} (hb : 0 < b) : b * ceilDiv a b < a + b := by
  unfold ceilDiv
  have hbq : (0 : ℚ) < (b : ℚ) := by exact_mod_cast hb
  have h : (⌈(a : ℚ) / b⌉ : ℚ) < (a : ℚ) / b + 1 := Int.ceil_lt_add_one _
  have h2 : (⌈(a : ℚ) / b⌉ : ℚ) * b < ((a : ℚ) / b + 1) * b :=
    mul_lt_mul_of_pos_right h hbq
  rw [add_mul, div_mul_cancel₀ _ (ne_of_gt hbq), one_mul] at h2
  have h3 : (b : ℚ) * (⌈(a : ℚ) / b⌉ : ℚ) < (a : ℚ) + b := by linarith
  exact_mod_cast h3

theorem ceilDiv_nonneg {a b : ℤ} (ha : 0 ≤ a) (hb : 0 ≤ b) : 0 ≤ ceilDiv a b := by
  unfold ceilDiv
  exact Int.ceil_nonneg (div_nonneg (by exact_mod_cast ha) (by exact_mod_cast hb))

theorem ceilDiv_two_le_self {a : ℤ} (ha : 0 ≤ a) : ceilDiv a 2 ≤ a := by
  unfold ceilDiv
  rw [Int.ceil_le]
  have haq : (0 : ℚ) ≤ (a : ℚ) := by exact_mod_cast ha
  push_cast
  rw [div_le_iff₀ (by norm_num : (0 : ℚ) < 2)]
  linarith

theorem minOverflowLoop_fuel (patch eff : ℤ) :
    ∀ (fuel : ℕ) (ov n : ℤ), (patch - 4 * ov).toNat ≤ fuel →
      ∃ k : ℕ, minOverflowLoop patch eff ov n = (ov + eff * k, n + k) ∧
        (0 < eff → patch ≤ 4 * (ov + eff * k)) := by
  intro fuel
  induction fuel with
  | zero =>
    intro ov n hle
    rw [minOverflowLoop]
    have hcond : ¬(4 * ov < patch ∧ 0 < eff) := by omega
    rw [dif_neg hcond]
    exact ⟨0, by simp, fun heff => by omega⟩
  | succ m ih =>
    intro ov n hle
    rw [minOverflowLoop]
    by_cases hcond : 4 * ov < patch ∧ 0 < eff
    · rw [dif_pos hcond]
      obtain ⟨k, hk, hexit⟩ := ih (ov + eff) (n + 1) (by omega)
      refine ⟨k + 1, ?_, fun heff => ?_⟩
      · rw [hk, Prod.mk.injEq]; constructor <;> (push_cast; ring)
      · have := hexit heff; push_cast; push_cast at this; linarith
    · rw [dif_neg hcond]
      exact ⟨0, by simp, fun heff => by omega⟩

theorem minOverflowLoop_eq (patch eff ov n : ℤ) :
    ∃ k : ℕ, minOverflowLoop patch eff ov n = (ov + eff * k, n + k) ∧
      (0 < eff → patch ≤ 4 * (ov + eff * k)) :=
  minOverflowLoop_fuel patch eff _ ov n le_rfl

theorem overlapLoop_fuel (overlap eff : ℤ) :
    ∀ (fuel : ℕ) (ov n : ℤ), (overlap - ov).toNat ≤ fuel →
      ∃ k : ℕ, overlapLoop overlap eff ov n = (ov + eff * k, n + k) ∧
        (0 < eff → overlap ≤ ov + eff * k) := by
  intro fuel
  induction fuel with
  | zero =>
    intro ov n hle
    rw [overlapLoop]
    have hcond : ¬(ov < overlap ∧ 0 < eff) := by omega
    rw [dif_neg hcond]
    exact ⟨0, by simp, fun heff => by omega⟩
  | succ m ih =>
    intro ov n hle
    rw [overlapLoop]
    by_cases hcond : ov < overlap ∧ 0 < eff
    · rw [dif_pos hcond]
      obtain ⟨k, hk, hexit⟩ := ih (ov + eff) (n + 1) (by omega)
      refine ⟨k + 1, ?_, fun heff => ?_⟩
      · rw [hk, Prod.mk.injEq]; constructor <;> (push_cast; ring)
      · have := hexit heff; push_cast; push_cast at this; linarith
    · rw [dif_neg hcond]
      exact ⟨0, by simp, fun heff => by omega⟩

theorem overlapLoop_eq (overlap eff ov n : ℤ) :
    ∃ k : ℕ, overlapLoop overlap eff ov n = (ov + eff * k, n + k) ∧
      (0 < eff → overlap ≤ ov + eff * k) :=
  overlapLoop_fuel overlap eff _ ov n le_rfl

theorem overflow0_nonneg {image patch overlap : ℤ} (hop : overlap < patch) :
    0 ≤ overflow0 image patch overlap := by
  have heff : 0 < patch - overlap := by omega
  have h := ceilDiv_le_mul (a := image - patch) heff
  unfold overflow0 nPatches0 effPatch
  have hexp : (patch - overlap) * (ceilDiv (image - patch) (patch - overlap) + 1)
      = (patch - overlap) * ceilDiv (image - patch) (patch - overlap)
        + (patch - overlap) := by ring
  linarith

/-- Unfolding of `calcAxis` in the randomized branch. -/
theorem calcAxis_true_def (image patch overlap r : ℤ) :
    calcAxis image patch overlap true r =
      ⟨-r,
       (minOverflowLoop patch (patch - overlap) (overflow0 image patch overlap)
          (nPatches0 image patch overlap)).2,
       patch - overlap,
       (minOverflowLoop patch (patch - overlap) (overflow0 image patch overlap)
          (nPatches0 image patch overlap)).1⟩ := rfl

/-- Unfolding of `calcAxis` in the non-randomized branch: `start_index` is
computed from the overflow before the extra-patch loop runs. -/
theorem calcAxis_false_def (image patch overlap r : ℤ) :
    calcAxis image patch overlap false r =
      ⟨-(ceilDiv (overflow0 image patch overlap) 2),
       (overlapLoop overlap (patch - overlap) (overflow0 image patch overlap)
          (nPatches0 image patch overlap)).2,
       patch - overlap,
       (overlapLoop overlap (patch - overlap) (overflow0 image patch overlap)
          (nPatches0 image patch overlap)).1⟩ := rfl

/-- The step of every axis plan is the effective patch size. -/
theorem calcAxis_step (image patch overlap : ℤ) (rand : Bool) (r : ℤ) :
    (calcAxis image patch overlap rand r).step = patch - overlap := by
  cases rand <;> rfl

/-- The overflow returned by `calcAxis` does not depend on the random draw. -/
theorem calcAxis_overflow_indep (image patch overlap : ℤ) (rand : Bool) (r r' : ℤ) :
    (calcAxis image patch overlap rand r).overflow
      = (calcAxis image patch overlap rand r').overflow := by
  cases rand <;> rfl

/-- Joint characterization of the plan of one axis, under the documented
precondition `0 ≤ overlap < patch_shape`: the final overflow is nonnegative,
the grid identity `step * n_patches = overflow + image - overlap` holds, and
the start index lies in `[-overflow, 0]` (given a valid random draw). -/
theorem calcAxis_char {image patch overlap : ℤ} (rand : Bool) (r : ℤ)
    (ho : 0 ≤ overlap) (hop : overlap < patch)
    (hr : rand = true → 0 ≤ r ∧ r ≤ (calcAxis image patch overlap rand r).overflow) :
    0 ≤ (calcAxis image patch overlap rand r).overflow ∧
    (calcAxis image patch overlap rand r).step * (calcAxis image patch overlap rand r).n
      = (calcAxis image patch overlap rand r).overflow + image - overlap ∧
    -(calcAxis image patch overlap rand r).overflow
      ≤ (calcAxis image patch overlap rand r).start ∧
    (calcAxis image patch overlap rand r).start ≤ 0 := by
  have heff : (0 : ℤ) < patch - overlap := by omega
  have hov0 : 0 ≤ overflow0 image patch overlap := overflow0_nonneg hop
  have hgrid0 : (patch - overlap) * nPatches0 image patch overlap
      = overflow0 image patch overlap + image - overlap := by
    unfold overflow0 effPatch; ring
  cases rand with
  | true =>
    obtain ⟨k, hk, hexit⟩ :=
      minOverflowLoop_eq patch (patch - overlap) (overflow0 image patch overlap)
        (nPatches0 image patch overlap)
    have hrr := hr rfl
    simp only [calcAxis_true_def, hk] at hrr ⊢
    have hknn : (0 : ℤ) ≤ (k : ℤ) := Int.natCast_nonneg k
    have hkeff : 0 ≤ (patch - overlap) * (k : ℤ) := by positivity
    refine ⟨by omega, ?_, by omega, by omega⟩
    calc (patch - overlap) * (nPatches0 image patch overlap + (k : ℤ))
        = (patch - overlap) * nPatches0 image patch overlap
          + (patch - overlap) * (k : ℤ) := by ring
      _ = overflow0 image patch overlap + (patch - overlap) * (k : ℤ)
          + image - overlap := by rw [hgrid0]; ring
  | false =>
    obtain ⟨k, hk, hexit⟩ :=
      overlapLoop_eq overlap (patch - overlap) (overflow0 image patch overlap)
        (nPatches0 image patch overlap)
    simp only [calcAxis_false_def, hk] at hr ⊢
    have hknn : (0 : ℤ) ≤ (k : ℤ) := Int.natCast_nonneg k
    have hkeff : 0 ≤ (patch - overlap) * (k : ℤ) := by positivity
    have hcl : 0 ≤ ceilDiv (overflow0 image patch overlap) 2 :=
      ceilDiv_nonneg hov0 (by norm_num)
    have hcu : ceilDiv (overflow0 image patch overlap) 2 ≤ overflow0 image patch overlap :=
      ceilDiv_two_le_self hov0
    refine ⟨by omega, ?_, by omega, by omega⟩
    calc (patch - overlap) * (nPatches0 image patch overlap + (k : ℤ))
        = (patch - overlap) * nPatches0 image patch overlap
          + (patch - overlap) * (k : ℤ) := by ring
      _ = overflow0 image patch overlap + (patch - overlap) * (k : ℤ)
          + image - overlap := by rw [hgrid0]; ring

/-- Membership in the start list of one axis. -/
theorem mem_axisStarts {p : AxisPlan} {st : ℤ} :
    st ∈ axisStarts p ↔ ∃ k : ℕ, (k : ℤ) < p.n ∧ st = p.start + p.step * (k : ℤ) := by
  unfold axisStarts
  constructor
  · intro h
    obtain ⟨k, hk, hkeq⟩ := List.mem_map.mp h
    rw [List.mem_range] at hk
    exact ⟨k, by omega, hkeq.symm⟩
  · rintro ⟨k, hk, rfl⟩
    exact List.mem_map.mpr ⟨k, List.mem_range.mpr (by omega), rfl⟩

/-- Every start produced for one axis lies in `[-overflow, image + overflow - patch]`:
the patch `[st, st + patch)` fits inside the padded axis once `overflow` is
added on both sides. -/
theorem axis_start_bounds {image patch overlap : ℤ} (rand : Bool) (r : ℤ)
    (ho : 0 ≤ overlap) (hop : overlap < patch)
    (hr : rand = true → 0 ≤ r ∧ r ≤ (calcAxis image patch overlap rand r).overflow)
    {st : ℤ} (hmem : st ∈ axisStarts (calcAxis image patch overlap rand r)) :
    -(calcAxis image patch overlap rand r).overflow ≤ st ∧
    st + patch ≤ image + (calcAxis image patch overlap rand r).overflow := by
  obtain ⟨hov, hgrid, hsl, hsu⟩ := calcAxis_char rand r ho hop hr
  obtain ⟨k, hkn, rfl⟩ := mem_axisStarts.mp hmem
  set p := calcAxis image patch overlap rand r with hp
  have hstep : p.step = patch - overlap := calcAxis_step image patch overlap rand r
  have heff : 0 < p.step := by omega
  have hknn : (0 : ℤ) ≤ (k : ℤ) := Int.natCast_nonneg k
  have hlow : 0 ≤ p.step * (k : ℤ) := by positivity
  have hupk : p.step * (k : ℤ) ≤ p.step * (p.n - 1) :=
    mul_le_mul_of_nonneg_left (by omega) (le_of_lt heff)
  have hexp : p.step * (p.n - 1) = p.step * p.n - p.step := by ring
  constructor
  · omega
  · omega

/-! ## Preconditions and draw validity -/

/-- The documented precondition `0 ≤ overlap < patch_shape` on every axis. -/
def OverlapOK (patch overlap : I3) : Prop :=
  0 ≤ overlap.1 ∧ overlap.1 < patch.1 ∧
  0 ≤ overlap.2.1 ∧ overlap.2.1 < patch.2.1 ∧
  0 ≤ overlap.2.2 ∧ overlap.2.2 < patch.2.2

/-- All three components lie in the value range of `np.int16`. -/
def Fits16 (st : I3) : Prop :=
  -32768 ≤ st.1 ∧ st.1 ≤ 32767 ∧
  -32768 ≤ st.2.1 ∧ st.2.1 ≤ 32767 ∧
  -32768 ≤ st.2.2 ∧ st.2.2 ≤ 32767

/-- A possible outcome of `np.random.choice(overflow + 1)` per axis: in the
randomized branch each drawn offset lies in `[0, overflow]`.  (In the
non-randomized branch no draw happens, so no constraint.) -/
def ValidDraw (image patch overlap : I3) (rand : Bool) (r : I3) : Prop :=
  rand = true →
    (0 ≤ r.1 ∧ r.1 ≤ (calcAxis image.1 patch.1 overlap.1 rand r.1).overflow) ∧
    (0 ≤ r.2.1 ∧ r.2.1 ≤ (calcAxis image.2.1 patch.2.1 overlap.2.1 rand r.2.1).overflow) ∧
    (0 ≤ r.2.2 ∧ r.2.2 ≤ (calcAxis image.2.2 patch.2.2 overlap.2.2 rand r.2.2).overflow)

/-- Raw volume used to totalize list lookups. -/
def dummyRaw : RawVolume := ⟨(0, 0, 0), fun _ _ _ => 0, fun _ _ _ => 0⟩

/-- Shape of the `i`-th loaded volume. -/
def volShape (vols : List RawVolume) (i : ℕ) : I3 := (vols.getD i dummyRaw).shape

/-- A family of draws, one per volume, each valid for that volume's shape. -/
def ValidDraws (vols : List RawVolume) (patch overlap : I3) (rand : Bool)
    (rs : ℕ → I3) : Prop :=
  ∀ i, i < vols.length → ValidDraw (volShape vols i) patch overlap rand (rs i)

/-- The per-axis overflow of a planning call (independent of the draw). -/
def planOv (sh patch overlap : I3) (rand : Bool) : I3 :=
  ((calcAxis sh.1 patch.1 overlap.1 rand 0).overflow,
   (calcAxis sh.2.1 patch.2.1 overlap.2.1 rand 0).overflow,
   (calcAxis sh.2.2 patch.2.2 overlap.2.2 rand 0).overflow)

/-- The `np.stack([overflow, overflow], axis=1)` record: the same overflow on
the low and high side of each axis. -/
def ovPair (sh patch overlap : I3) (rand : Bool) : I3 × I3 :=
  (planOv sh patch overlap rand, planOv sh patch overlap rand)

theorem calcPatchIndices_overflow (image patch overlap : I3) (rand : Bool) (r : I3) :
    (calcPatchIndices image patch overlap rand r).2 = planOv image patch overlap rand := by
  unfold calcPatchIndices planOv
  refine congrArg₂ _ ?_ (congrArg₂ _ ?_ ?_) <;> apply calcAxis_overflow_indep

/-- Membership in the placement list of `calc_patch_indices` is componentwise
membership in the three per-axis progressions. -/
theorem mem_calcPatchIndices {image patch overlap : I3} {rand : Bool} {r : I3} {st : I3} :
    st ∈ (calcPatchIndices image patch overlap rand r).1 ↔
      st.1 ∈ axisStarts (calcAxis image.1 patch.1 overlap.1 rand r.1) ∧
      st.2.1 ∈ axisStarts (calcAxis image.2.1 patch.2.1 overlap.2.1 rand r.2.1) ∧
      st.2.2 ∈ axisStarts (calcAxis image.2.2 patch.2.2 overlap.2.2 rand r.2.2) := by
  unfold calcPatchIndices
  simp only [List.mem_flatMap, List.mem_map]
  constructor
  · rintro ⟨a, ha, b, hb, c, hc, rfl⟩
    exact ⟨ha, hb, hc⟩
  · rintro ⟨h1, h2, h3⟩
    exact ⟨st.1, h1, st.2.1, h2, st.2.2, h3, rfl⟩

/-! ## Field equations of the state operations -/

theorem init_data (s : DState) (rs : ℕ → I3) :
    (initializePatchIndices s rs).data = s.data := rfl

theorem init_labels (s : DState) (rs : ℕ → I3) :
    (initializePatchIndices s rs).labels = s.labels := rfl

theorem init_unpadded (s : DState) (rs : ℕ → I3) :
    (initializePatchIndices s rs).unpadded = s.unpadded := rfl

theorem init_patchShape (s : DState) (rs : ℕ → I3) :
    (initializePatchIndices s rs).patchShape = s.patchShape := rfl

theorem init_patchOverlap (s : DState) (rs : ℕ → I3) :
    (initializePatchIndices s rs).patchOverlap = s.patchOverlap := rfl

theorem init_randomize (s : DState) (rs : ℕ → I3) :
    (initializePatchIndices s rs).randomize = s.randomize := rfl

theorem init_patchIndices (s : DState) (rs : ℕ → I3) :
    (initializePatchIndices s rs).patchIndices =
      (List.range s.data.length).flatMap (fun i =>
        (calcPatchIndices (s.unpadded.getD i (0, 0, 0)) s.patchShape s.patchOverlap
            s.randomize (rs i)).1.map (fun st => (i, st))) := rfl

theorem init_padding (s : DState) (rs : ℕ → I3) :
    (initializePatchIndices s rs).padding =
      (List.range s.padding.length).map (fun i =>
        if i < s.data.length ∧ s.padding.getD i none = none then
          some ((calcPatchIndices (s.unpadded.getD i (0, 0, 0)) s.patchShape
                  s.patchOverlap s.randomize (rs i)).2,
                (calcPatchIndices (s.unpadded.getD i (0, 0, 0)) s.patchShape
                  s.patchOverlap s.randomize (rs i)).2)
        else s.padding.getD i none) := rfl

theorem getD_map_of_lt {α β : Type _} (f : α → β) (l : List α) (i : ℕ) (d : β)
    (h : i < l.length) : (l.map f).getD i d = f l[i] := by
  rw [List.getD_eq_getElem?_getD, List.getElem?_map, List.getElem?_eq_getElem h]
  rfl

theorem getD_of_lt {α : Type _} (l : List α) (i : ℕ) (d : α) (h : i < l.length) :
    l.getD i d = l[i] := by
  rw [List.getD_eq_getElem?_getD, List.getElem?_eq_getElem h]
  rfl

/-- A second call to `initialize_patch_indices` does not modify the padding
record of any volume whose record is already set. -/
theorem init_padding_of_set (s : DState) (rs : ℕ → I3)
    (h : ∀ x ∈ s.padding, x ≠ none) :
    (initializePatchIndices s rs).padding = s.padding := by
  rw [init_padding]
  apply List.ext_getElem
  · simp
  · intro i h1 h2
    simp only [List.getElem_map, List.getElem_range]
    have hx : s.padding.getD i none = s.padding[i] := getD_of_lt _ _ _ h2
    rw [if_neg, hx]
    rintro ⟨-, hnone⟩
    exact h s.padding[i] (List.getElem_mem h2) (hx ▸ hnone)

theorem volShape_of_lt {vols : List RawVolume} {i : ℕ} (h : i < vols.length) :
    volShape vols i = vols[i].shape := by
  unfold volShape
  rw [getD_of_lt _ _ _ h]

/-! ## Facts about the constructed dataset -/

theorem mk_padding (vols : List RawVolume) (patch overlap : I3) (rand : Bool)
    (rs : ℕ → I3) (fS fL : ℕ → Vol) :
    (mkDataset vols patch overlap rand rs fS fL).padding
      = (List.range vols.length).map (fun i =>
          some (ovPair (volShape vols i) patch overlap rand)) := by
  have hstep : (mkDataset vols patch overlap rand rs fS fL).padding
      = (initializePatchIndices (initState vols patch overlap rand) rs).padding := rfl
  rw [hstep, init_padding]
  apply List.ext_getElem
  · simp [initState]
  · intro i h1 h2
    have hi : i < vols.length := by
      simpa [initState] using h2
    simp only [List.getElem_map, List.getElem_range]
    rw [if_pos]
    · rw [calcPatchIndices_overflow]
      have hu : (initState vols patch overlap rand).unpadded.getD i (0, 0, 0)
          = volShape vols i := by
        show ((vols.map (fun v => v.shape)).getD i (0, 0, 0)) = volShape vols i
        rw [getD_map_of_lt _ _ _ _ hi, volShape_of_lt hi]
      rw [hu]
      rfl
    · constructor
      · show i < (vols.map (fun v => (v.shape, v.signal))).length
        simpa using hi
      · show (vols.map (fun _ => (none : Option (I3 × I3)))).getD i none = none
        rw [getD_map_of_lt _ _ _ _ hi]

theorem mk_padding_getD (vols : List RawVolume) (patch overlap : I3) (rand : Bool)
    (rs : ℕ → I3) (fS fL : ℕ → Vol) {i : ℕ} (hi : i < vols.length) :
    (mkDataset vols patch overlap rand rs fS fL).padding.getD i none
      = some (ovPair (volShape vols i) patch overlap rand) := by
  rw [mk_padding]
  rw [getD_map_of_lt _ _ _ _ (by simpa using hi), List.getElem_range]

theorem mk_data_getD (vols : List RawVolume) (patch overlap : I3) (rand : Bool)
    (rs : ℕ → I3) (fS fL : ℕ → Vol) {i : ℕ} (hi : i < vols.length) :
    (mkDataset vols patch overlap rand rs fS fL).data.getD i dummyVol
      = padVol (vols[i].shape, vols[i].signal)
          (ovPair (volShape vols i) patch overlap rand) (fS i) := by
  have hstep : (mkDataset vols patch overlap rand rs fS fL).data
      = (List.range (initializePatchIndices (initState vols patch overlap rand)
            rs).data.length).map (fun i =>
          match (initializePatchIndices (initState vols patch overlap rand)
              rs).padding.getD i none with
          | some pw => padVol ((initializePatchIndices (initState vols patch overlap
              rand) rs).data.getD i dummyVol) pw (fS i)
          | none => (initializePatchIndices (initState vols patch overlap rand)
              rs).data.getD i dummyVol) := rfl
  have hlen : (initializePatchIndices (initState vols patch overlap rand)
      rs).data.length = vols.length := by
    rw [init_data]; simp [initState]
  have hpad : (initializePatchIndices (initState vols patch overlap rand)
      rs).padding.getD i none
      = some (ovPair (volShape vols i) patch overlap rand) :=
    mk_padding_getD vols patch overlap rand rs fS fL hi
  have hdat : (initializePatchIndices (initState vols patch overlap rand)
      rs).data.getD i dummyVol = (vols[i].shape, vols[i].signal) := by
    rw [init_data]
    show ((vols.map (fun v => (v.shape, v.signal))).getD i dummyVol) = _
    rw [getD_map_of_lt _ _ _ _ hi]
  rw [hstep, getD_map_of_lt _ _ _ _ (by simpa [hlen] using hi), List.getElem_range,
    hpad, hdat]

theorem mk_labels_getD (vols : List RawVolume) (patch overlap : I3) (rand : Bool)
    (rs : ℕ → I3) (fS fL : ℕ → Vol) {i : ℕ} (hi : i < vols.length) :
    (mkDataset vols patch overlap rand rs fS fL).labels.getD i dummyVol
      = padVol (vols[i].shape, vols[i].label)
          (ovPair (volShape vols i) patch overlap rand) (fL i) := by
  have hstep : (mkDataset vols patch overlap rand rs fS fL).labels
      = (List.range (initializePatchIndices (initState vols patch overlap rand)
            rs).labels.length).map (fun i =>
          match (initializePatchIndices (initState vols patch overlap rand)
              rs).padding.getD i none with
          | some pw => padVol ((initializePatchIndices (initState vols patch overlap
              rand) rs).labels.getD i dummyVol) pw (fL i)
          | none => (initializePatchIndices (initState vols patch overlap rand)
              rs).labels.getD i dummyVol) := rfl
  have hlen : (initializePatchIndices (initState vols patch overlap rand)
      rs).labels.length = vols.length := by
    rw [init_labels]; simp [initState]
  have hpad : (initializePatchIndices (initState vols patch overlap rand)
      rs).padding.getD i none
      = some (ovPair (volShape vols i) patch overlap rand) :=
    mk_padding_getD vols patch overlap rand rs fS fL hi
  have hdat : (initializePatchIndices (initState vols patch overlap rand)
      rs).labels.getD i dummyVol = (vols[i].shape, vols[i].label) := by
    rw [init_labels]
    show ((vols.map (fun v => (v.shape, v.label))).getD i dummyVol) = _
    rw [getD_map_of_lt _ _ _ _ hi]
  rw [hstep, getD_map_of_lt _ _ _ _ (by simpa [hlen] using hi), List.getElem_range,
    hpad, hdat]

theorem mk_unpadded (vols : List RawVolume) (patch overlap : I3) (rand : Bool)
    (rs : ℕ → I3) (fS fL : ℕ → Vol) :
    (mkDataset vols patch overlap rand rs fS fL).unpadded
      = vols.map (fun v => v.shape) := rfl

theorem mk_patchShape (vols : List RawVolume) (patch overlap : I3) (rand : Bool)
    (rs : ℕ → I3) (fS fL : ℕ → Vol) :
    (mkDataset vols patch overlap rand rs fS fL).patchShape = patch := rfl

theorem mk_patchOverlap (vols : List RawVolume) (patch overlap : I3) (rand : Bool)
    (rs : ℕ → I3) (fS fL : ℕ → Vol) :
    (mkDataset vols patch overlap rand rs fS fL).patchOverlap = overlap := rfl

theorem mk_randomize (vols : List RawVolume) (patch overlap : I3) (rand : Bool)
    (rs : ℕ → I3) (fS fL : ℕ → Vol) :
    (mkDataset vols patch overlap rand rs fS fL).randomize = rand := rfl

theorem mk_data_length (vols : List RawVolume) (patch overlap : I3) (rand : Bool)
    (rs : ℕ → I3) (fS fL : ℕ → Vol) :
    (mkDataset vols patch overlap rand rs fS fL).data.length = vols.length := by
  show ((List.range (initializePatchIndices (initState vols patch overlap rand)
      rs).data.length).map _).length = vols.length
  rw [List.length_map, List.length_range, init_data]
  simp [initState]

theorem mk_labels_length (vols : List RawVolume) (patch overlap : I3) (rand : Bool)
    (rs : ℕ → I3) (fS fL : ℕ → Vol) :
    (mkDataset vols patch overlap rand rs fS fL).labels.length = vols.length := by
  show ((List.range (initializePatchIndices (initState vols patch overlap rand)
      rs).labels.length).map _).length = vols.length
  rw [List.length_map, List.length_range, init_labels]
  simp [initState]

theorem mk_patchIndices (vols : List RawVolume) (patch overlap : I3) (rand : Bool)
    (rs : ℕ → I3) (fS fL : ℕ → Vol) :
    (mkDataset vols patch overlap rand rs fS fL).patchIndices
      = (initializePatchIndices (initState vols patch overlap rand)
          rs).patchIndices := rfl

/-! ## Invariant of reachable dataset states -/

/-- Shape after padding both sides of every axis by `ov`. -/
def padShape (sh ov : I3) : I3 :=
  (sh.1 + ov.1 + ov.1, sh.2.1 + ov.2.1 + ov.2.1, sh.2.2 + ov.2.2 + ov.2.2)

/-- Everything that holds of a dataset state reached by construction followed
by any number of re-randomizations (with valid draws throughout). -/
structure Good (vols : List RawVolume) (patch overlap : I3) (rand : Bool)
    (s : DState) : Prop where
  pshape : s.patchShape = patch
  pover : s.patchOverlap = overlap
  prand : s.randomize = rand
  punp : s.unpadded = vols.map (fun v => v.shape)
  datalen : s.data.length = vols.length
  labellen : s.labels.length = vols.length
  pad : s.padding = (List.range vols.length).map (fun i =>
      some (ovPair (volShape vols i) patch overlap rand))
  datashape : ∀ i, i < vols.length →
    (s.data.getD i dummyVol).1
      = padShape (volShape vols i) (planOv (volShape vols i) patch overlap rand)
  labelshape : ∀ i, i < vols.length →
    (s.labels.getD i dummyVol).1
      = padShape (volShape vols i) (planOv (volShape vols i) patch overlap rand)
  index : ∀ e ∈ s.patchIndices, e.1 < vols.length ∧
    ∃ r, ValidDraw (volShape vols e.1) patch overlap rand r ∧
      e.2 ∈ (calcPatchIndices (volShape vols e.1) patch overlap rand r).1

theorem index_of_init {vols : List RawVolume} {patch overlap : I3} {rand : Bool}
    {s : DState} {g : ℕ → I3}
    (hd : s.data.length = vols.length) (hu : s.unpadded = vols.map (fun v => v.shape))
    (hp : s.patchShape = patch) (hov : s.patchOverlap = overlap)
    (hra : s.randomize = rand) (hg : ValidDraws vols patch overlap rand g) :
    ∀ e ∈ (initializePatchIndices s g).patchIndices, e.1 < vols.length ∧
      ∃ r, ValidDraw (volShape vols e.1) patch overlap rand r ∧
        e.2 ∈ (calcPatchIndices (volShape vols e.1) patch overlap rand r).1 := by
  intro e he
  rw [init_patchIndices] at he
  obtain ⟨i, hi, he2⟩ := List.mem_flatMap.mp he
  rw [List.mem_range, hd] at hi
  obtain ⟨st, hst, rfl⟩ := List.mem_map.mp he2
  refine ⟨hi, g i, hg i hi, ?_⟩
  have hui : s.unpadded.getD i (0, 0, 0) = volShape vols i := by
    rw [hu, getD_map_of_lt _ _ _ _ hi, volShape_of_lt hi]
  rw [hui, hp, hov, hra] at hst
  exact hst

theorem good_mk {vols : List RawVolume} {patch overlap : I3} {rand : Bool}
    {rs : ℕ → I3} {fS fL : ℕ → Vol}
    (hrs : ValidDraws vols patch overlap rand rs) :
    Good vols patch overlap rand (mkDataset vols patch overlap rand rs fS fL) where
  pshape := rfl
  pover := rfl
  prand := rfl
  punp := rfl
  datalen := mk_data_length vols patch overlap rand rs fS fL
  labellen := mk_labels_length vols patch overlap rand rs fS fL
  pad := mk_padding vols patch overlap rand rs fS fL
  datashape := fun i hi => by
    rw [mk_data_getD vols patch overlap rand rs fS fL hi, volShape_of_lt hi]
    rfl
  labelshape := fun i hi => by
    rw [mk_labels_getD vols patch overlap rand rs fS fL hi, volShape_of_lt hi]
    rfl
  index := by
    rw [mk_patchIndices]
    exact index_of_init (by simp [initState]) rfl rfl rfl rfl hrs

theorem good_padding_ne_none {vols : List RawVolume} {patch overlap : I3}
    {rand : Bool} {s : DState} (hG : Good vols patch overlap rand s) :
    ∀ x ∈ s.padding, x ≠ none := by
  intro x hx
  rw [hG.pad] at hx
  obtain ⟨i, -, rfl⟩ := List.mem_map.mp hx
  simp

theorem good_init {vols : List RawVolume} {patch overlap : I3} {rand : Bool}
    {s : DState} {g : ℕ → I3} (hG : Good vols patch overlap rand s)
    (hg : ValidDraws vols patch overlap rand g) :
    Good vols patch overlap rand (initializePatchIndices s g) where
  pshape := hG.pshape
  pover := hG.pover
  prand := hG.prand
  punp := hG.punp
  datalen := hG.datalen
  labellen := hG.labellen
  pad := by
    rw [init_padding_of_set s g (good_padding_ne_none hG)]
    exact hG.pad
  datashape := hG.datashape
  labelshape := hG.labelshape
  index := index_of_init hG.datalen hG.punp hG.pshape hG.pover hG.prand hg

theorem good_reinits {vols : List RawVolume} {patch overlap : I3} {rand : Bool} :
    ∀ (l : List (ℕ → I3)) (s : DState), Good vols patch overlap rand s →
      (∀ g ∈ l, ValidDraws vols patch overlap rand g) →
      Good vols patch overlap rand (reinits s l) := by
  intro l
  induction l with
  | nil => exact fun s hG _ => hG
  | cons g t ih =>
    intro s hG hl
    exact ih _ (good_init hG (hl g (by simp))) (fun g' hg' => hl g' (by simp [hg']))

/-! ## Patch extraction -/

theorem sliceIndex_of_in {a len : ℤ} (h0 : 0 ≤ a) (hl : a ≤ len) :
    sliceIndex a len = a := by
  unfold sliceIndex
  rw [if_neg (by omega)]
  exact min_eq_left hl

theorem sliceLen_exact {a b len : ℤ} (h0 : 0 ≤ a) (hab : a ≤ b) (hbl : b ≤ len) :
    sliceLen a b len = b - a := by
  unfold sliceLen
  rw [sliceIndex_of_in (le_trans h0 hab) hbl, sliceIndex_of_in h0 (le_trans hab hbl)]
  exact max_eq_right (by omega)

theorem wrap16_eq_self {x : ℤ} (h1 : -32768 ≤ x) (h2 : x ≤ 32767) :
    wrap16 x = x := by
  unfold wrap16
  omega

theorem calcAxis_overflow_nonneg {image patch overlap : ℤ} (rand : Bool) (r : ℤ)
    (hop : overlap < patch) :
    0 ≤ (calcAxis image patch overlap rand r).overflow := by
  have hov0 : 0 ≤ overflow0 image patch overlap := overflow0_nonneg hop
  cases rand with
  | true =>
    obtain ⟨k, hk, -⟩ := minOverflowLoop_eq patch (patch - overlap)
      (overflow0 image patch overlap) (nPatches0 image patch overlap)
    simp only [calcAxis_true_def, hk]
    have hkeff : 0 ≤ (patch - overlap) * (k : ℤ) :=
      mul_nonneg (by omega) (Int.natCast_nonneg k)
    omega
  | false =>
    obtain ⟨k, hk, -⟩ := overlapLoop_eq overlap (patch - overlap)
      (overflow0 image patch overlap) (nPatches0 image patch overlap)
    simp only [calcAxis_false_def, hk]
    have hkeff : 0 ≤ (patch - overlap) * (k : ℤ) :=
      mul_nonneg (by omega) (Int.natCast_nonneg k)
    omega

/-- Core extraction lemma: at any in-range flat index whose start coordinates
fit in `np.int16`, `__getitem__` on a reachable state succeeds, the two shape
assertions pass, and the returned bounds and validity mask are the exact
values computed from the stored start. -/
theorem getitem_ok_core {vols : List RawVolume} {patch overlap : I3} {rand : Bool}
    {s : DState} (hG : Good vols patch overlap rand s) (hO : OverlapOK patch overlap)
    {idx di : ℕ} {st : I3}
    (hidx : s.patchIndices.get? idx = some (di, st)) (hfit : Fits16 st) :
    ∃ t : PatchResult, getitem s idx = Except.ok t ∧
      t.signalShape = patch ∧ t.labelShape = patch ∧ t.volIndex = di ∧
      t.bounds = (st, (st.1 + patch.1, st.2.1 + patch.2.1, st.2.2 + patch.2.2)) ∧
      t.valid = ((clip st.1 0 (volShape vols di).1 - st.1,
                  clip st.2.1 0 (volShape vols di).2.1 - st.2.1,
                  clip st.2.2 0 (volShape vols di).2.2 - st.2.2),
                 (clip (st.1 + patch.1) 0 (volShape vols di).1 - st.1,
                  clip (st.2.1 + patch.2.1) 0 (volShape vols di).2.1 - st.2.1,
                  clip (st.2.2 + patch.2.2) 0 (volShape vols di).2.2 - st.2.2)) := by
  obtain ⟨ho1, hp1, ho2, hp2, ho3, hp3⟩ := hO
  have hmem0 : (di, st) ∈ s.patchIndices := List.get?_mem hidx
  obtain ⟨hdi, r, hvr, hmem⟩ := hG.index (di, st) hmem0
  have hmem' : st ∈ (calcPatchIndices (volShape vols di) patch overlap rand r).1 :=
    hmem
  obtain ⟨hm1, hm2, hm3⟩ := mem_calcPatchIndices.mp hmem'
  set ush := volShape vols di with hush
  set ov := planOv ush patch overlap rand with hov
  have hov1 : (calcAxis ush.1 patch.1 overlap.1 rand r.1).overflow = ov.1 :=
    calcAxis_overflow_indep _ _ _ _ _ _
  have hov2 : (calcAxis ush.2.1 patch.2.1 overlap.2.1 rand r.2.1).overflow = ov.2.1 :=
    calcAxis_overflow_indep _ _ _ _ _ _
  have hov3 : (calcAxis ush.2.2 patch.2.2 overlap.2.2 rand r.2.2).overflow = ov.2.2 :=
    calcAxis_overflow_indep _ _ _ _ _ _
  have hb1 := axis_start_bounds rand r.1 ho1 hp1 (fun h => (hvr h).1) hm1
  have hb2 := axis_start_bounds rand r.2.1 ho2 hp2 (fun h => (hvr h).2.1) hm2
  have hb3 := axis_start_bounds rand r.2.2 ho3 hp3 (fun h => (hvr h).2.2) hm3
  rw [hov1] at hb1
  rw [hov2] at hb2
  rw [hov3] at hb3
  obtain ⟨hb1l, hb1u⟩ := hb1
  obtain ⟨hb2l, hb2u⟩ := hb2
  obtain ⟨hb3l, hb3u⟩ := hb3
  obtain ⟨f1, f2, f3, f4, f5, f6⟩ := hfit
  have hpadD : s.padding.getD di none = some (ovPair ush patch overlap rand) := by
    rw [hG.pad, getD_map_of_lt _ _ _ _ (by simpa using hdi), List.getElem_range]
  have hunpD : s.unpadded.getD di (0, 0, 0) = ush := by
    rw [hG.punp, getD_map_of_lt _ _ _ _ hdi, hush, volShape_of_lt hdi]
  have hds := hG.datashape di hdi
  have hls := hG.labelshape di hdi
  have hds1 : (s.data.getD di dummyVol).1.1 = ush.1 + ov.1 + ov.1 := by
    rw [hds]; rfl
  have hds2 : (s.data.getD di dummyVol).1.2.1 = ush.2.1 + ov.2.1 + ov.2.1 := by
    rw [hds]; rfl
  have hds3 : (s.data.getD di dummyVol).1.2.2 = ush.2.2 + ov.2.2 + ov.2.2 := by
    rw [hds]; rfl
  have hls1 : (s.labels.getD di dummyVol).1.1 = ush.1 + ov.1 + ov.1 := by
    rw [hls]; rfl
  have hls2 : (s.labels.getD di dummyVol).1.2.1 = ush.2.1 + ov.2.1 + ov.2.1 := by
    rw [hls]; rfl
  have hls3 : (s.labels.getD di dummyVol).1.2.2 = ush.2.2 + ov.2.2 + ov.2.2 := by
    rw [hls]; rfl
  have hs1 : sliceLen (st.1 + ov.1) (st.1 + patch.1 + ov.1) (ush.1 + ov.1 + ov.1)
      = patch.1 := by
    rw [sliceLen_exact (by omega) (by omega) (by omega)]; ring
  have hs2 : sliceLen (st.2.1 + ov.2.1) (st.2.1 + patch.2.1 + ov.2.1)
      (ush.2.1 + ov.2.1 + ov.2.1) = patch.2.1 := by
    rw [sliceLen_exact (by omega) (by omega) (by omega)]; ring
  have hs3 : sliceLen (st.2.2 + ov.2.2) (st.2.2 + patch.2.2 + ov.2.2)
      (ush.2.2 + ov.2.2 + ov.2.2) = patch.2.2 := by
    rw [sliceLen_exact (by omega) (by omega) (by omega)]; ring
  unfold getitem
  rw [hidx]
  simp only [sliceVol, hpadD, hunpD, hG.pshape, Option.elim, ovPair,
    wrap16_eq_self f1 f2, wrap16_eq_self f3 f4, wrap16_eq_self f5 f6,
    hds1, hds2, hds3, hls1, hls2, hls3]
  have hcond : ((sliceLen (st.1 + ov.1) (st.1 + patch.1 + ov.1)
        (ush.1 + ov.1 + ov.1), sliceLen (st.2.1 + ov.2.1)
        (st.2.1 + patch.2.1 + ov.2.1) (ush.2.1 + ov.2.1 + ov.2.1),
        sliceLen (st.2.2 + ov.2.2) (st.2.2 + patch.2.2 + ov.2.2)
        (ush.2.2 + ov.2.2 + ov.2.2)) : I3) = patch := by
    rw [Prod.ext_iff, Prod.ext_iff]
    exact ⟨hs1, hs2, hs3⟩
  rw [if_pos ⟨hcond, hcond⟩]
  exact ⟨_, rfl, hcond, hcond, rfl, rfl, rfl⟩

/-! ## Evaluation at concrete configurations -/

theorem ceilDiv_eq_of {a b c : ℤ} (hb : 0 < b) (h1 : b * (c - 1) < a)
    (h2 : a ≤ b * c) : ceilDiv a b = c := by
  unfold ceilDiv
  have hbq : (0 : ℚ) < (b : ℚ) := by exact_mod_cast hb
  rw [Int.ceil_eq_iff]
  constructor
  · rw [show ((c : ℤ) : ℚ) - 1 = (((c - 1 : ℤ)) : ℚ) by push_cast; ring,
      lt_div_iff₀ hbq]
    rw [show (((c - 1 : ℤ)) : ℚ) * b = (((b * (c - 1) : ℤ)) : ℚ) by push_cast; ring]
    exact_mod_cast h1
  · rw [div_le_iff₀ hbq]
    rw [show ((c : ℤ) : ℚ) * b = (((b * c : ℤ)) : ℚ) by push_cast; ring]
    exact_mod_cast h2

theorem nPatches0_32_8 : nPatches0 32 8 0 = 4 := by
  have h : ceilDiv (32 - 8) (effPatch 8 0) = 3 :=
    ceilDiv_eq_of (by norm_num [effPatch]) (by norm_num [effPatch])
      (by norm_num [effPatch])
  unfold nPatches0
  rw [h]
  norm_num

theorem overflow0_32_8 : overflow0 32 8 0 = 0 := by
  unfold overflow0
  rw [nPatches0_32_8]
  norm_num [effPatch]

theorem calcAxis_32_8_false (r : ℤ) : calcAxis 32 8 0 false r = ⟨0, 4, 8, 0⟩ := by
  rw [calcAxis_false_def, nPatches0_32_8, overflow0_32_8]
  have hc : ceilDiv 0 2 = 0 :=
    ceilDiv_eq_of (by norm_num) (by norm_num) (by norm_num)
  rw [hc, overlapLoop]
  norm_num

theorem calcAxis_32_8_true (r : ℤ) : calcAxis 32 8 0 true r = ⟨-r, 5, 8, 8⟩ := by
  rw [calcAxis_true_def, nPatches0_32_8, overflow0_32_8]
  rw [minOverflowLoop]
  norm_num
  rw [minOverflowLoop]
  norm_num

theorem nPatches0_8_40000 : nPatches0 8 40000 0 = 1 := by
  have h : ceilDiv (8 - 40000) (effPatch 40000 0) = 0 :=
    ceilDiv_eq_of (by norm_num [effPatch]) (by norm_num [effPatch])
      (by norm_num [effPatch])
  unfold nPatches0
  rw [h]
  norm_num

theorem overflow0_8_40000 : overflow0 8 40000 0 = 39992 := by
  unfold overflow0
  rw [nPatches0_8_40000]
  norm_num [effPatch]

theorem calcAxis_8_40000_true (r : ℤ) :
    calcAxis 8 40000 0 true r = ⟨-r, 1, 40000, 39992⟩ := by
  rw [calcAxis_true_def, nPatches0_8_40000, overflow0_8_40000]
  rw [minOverflowLoop]
  norm_num

theorem nPatches0_8_100000 : nPatches0 8 100000 0 = 1 := by
  have h : ceilDiv (8 - 100000) (effPatch 100000 0) = 0 :=
    ceilDiv_eq_of (by norm_num [effPatch]) (by norm_num [effPatch])
      (by norm_num [effPatch])
  unfold nPatches0
  rw [h]
  norm_num

theorem overflow0_8_100000 : overflow0 8 100000 0 = 99992 := by
  unfold overflow0
  rw [nPatches0_8_100000]
  norm_num [effPatch]

theorem calcAxis_8_100000_true (r : ℤ) :
    calcAxis 8 100000 0 true r = ⟨-r, 1, 100000, 99992⟩ := by
  rw [calcAxis_true_def, nPatches0_8_100000, overflow0_8_100000]
  rw [minOverflowLoop]
  norm_num

theorem nPatches0_5_4 : nPatches0 5 4 0 = 2 := by
  have h : ceilDiv (5 - 4) (effPatch 4 0) = 1 :=
    ceilDiv_eq_of (by norm_num [effPatch]) (by norm_num [effPatch])
      (by norm_num [effPatch])
  unfold nPatches0
  rw [h]
  norm_num

theorem overflow0_5_4 : overflow0 5 4 0 = 3 := by
  unfold overflow0
  rw [nPatches0_5_4]
  norm_num [effPatch]

theorem calcAxis_5_4_false (r : ℤ) : calcAxis 5 4 0 false r = ⟨-2, 2, 4, 3⟩ := by
  rw [calcAxis_false_def, nPatches0_5_4, overflow0_5_4]
  have hc : ceilDiv 3 2 = 2 :=
    ceilDiv_eq_of (by norm_num) (by norm_num) (by norm_num)
  rw [hc, overlapLoop]
  norm_num

theorem nPatches0_2_10_5 : nPatches0 2 10 5 = 0 := by
  have h : ceilDiv (2 - 10) (effPatch 10 5) = -1 :=
    ceilDiv_eq_of (by norm_num [effPatch]) (by norm_num [effPatch])
      (by norm_num [effPatch])
  unfold nPatches0
  rw [h]
  norm_num

/-! ## Per-axis facts used by the claim theorems -/

theorem nPatches0_pos {image patch overlap : ℤ} (hop : overlap < patch)
    (him : overlap < image) : 1 ≤ nPatches0 image patch overlap := by
  have hb : (0 : ℤ) < patch - overlap := by omega
  have hle := ceilDiv_le_mul (a := image - patch) (b := patch - overlap) hb
  unfold nPatches0 effPatch
  by_contra hcon
  push_neg at hcon
  have hc1 : ceilDiv (image - patch) (patch - overlap) ≤ -1 := by omega
  have hmul : (patch - overlap) * ceilDiv (image - patch) (patch - overlap)
      ≤ (patch - overlap) * (-1) :=
    mul_le_mul_of_nonneg_left hc1 (le_of_lt hb)
  linarith

theorem calcAxis_n_ge (image patch overlap : ℤ) (rand : Bool) (r : ℤ) :
    nPatches0 image patch overlap ≤ (calcAxis image patch overlap rand r).n := by
  cases rand with
  | true =>
    obtain ⟨k, hk, -⟩ := minOverflowLoop_eq patch (patch - overlap)
      (overflow0 image patch overlap) (nPatches0 image patch overlap)
    simp only [calcAxis_true_def, hk]
    omega
  | false =>
    obtain ⟨k, hk, -⟩ := overlapLoop_eq overlap (patch - overlap)
      (overflow0 image patch overlap) (nPatches0 image patch overlap)
    simp only [calcAxis_false_def, hk]
    omega

theorem start_mem_axisStarts {image patch overlap : ℤ} (rand : Bool) (r : ℤ)
    (hn : 1 ≤ nPatches0 image patch overlap) :
    (calcAxis image patch overlap rand r).start
      ∈ axisStarts (calcAxis image patch overlap rand r) := by
  have := calcAxis_n_ge image patch overlap rand r
  exact mem_axisStarts.mpr ⟨0, by omega, by simp⟩

/-- One axis of the minimum-overflow guarantee of the randomized branch. -/
theorem minOverflow_axis {image patch overlap : ℤ} (hop : overlap < patch) (r : ℤ) :
    (1 / 4 : ℚ) * (patch : ℚ)
      ≤ (((calcAxis image patch overlap true r).overflow : ℤ) : ℚ) := by
  obtain ⟨k, hk, hexit⟩ := minOverflowLoop_eq patch (patch - overlap)
    (overflow0 image patch overlap) (nPatches0 image patch overlap)
  have h4 : patch ≤ 4 * (overflow0 image patch overlap + (patch - overlap) * (k : ℤ)) :=
    hexit (by omega)
  simp only [calcAxis_true_def, hk]
  have hc : (patch : ℚ) ≤ 4 * (((overflow0 image patch overlap
      + (patch - overlap) * (k : ℤ) : ℤ)) : ℚ) := by exact_mod_cast h4
  linarith

/-- One axis of the coverage property: `overlap = 0`, non-random mode. -/
theorem axis_coverage {image patch : ℤ} (hp : 0 < patch) (hpi : patch ≤ image)
    {c : ℤ} (hc0 : 0 ≤ c) (hci : c < image) (r : ℤ) :
    ∃ st ∈ axisStarts (calcAxis image patch 0 false r), st ≤ c ∧ c < st + patch := by
  have hov0 : 0 ≤ overflow0 image patch 0 := overflow0_nonneg (by omega)
  have hloop : overlapLoop 0 (patch - 0) (overflow0 image patch 0)
      (nPatches0 image patch 0) = (overflow0 image patch 0, nPatches0 image patch 0) := by
    rw [overlapLoop, dif_neg]
    omega
  have hplan : calcAxis image patch 0 false r
      = ⟨-(ceilDiv (overflow0 image patch 0) 2), nPatches0 image patch 0, patch - 0,
         overflow0 image patch 0⟩ := by
    rw [calcAxis_false_def, hloop]
  have hcl : 0 ≤ ceilDiv (overflow0 image patch 0) 2 :=
    ceilDiv_nonneg hov0 (by norm_num)
  have hcu : ceilDiv (overflow0 image patch 0) 2 ≤ overflow0 image patch 0 :=
    ceilDiv_two_le_self hov0
  have hgrid : patch * nPatches0 image patch 0 = overflow0 image patch 0 + image := by
    unfold overflow0 effPatch
    ring
  set s := -(ceilDiv (overflow0 image patch 0) 2) with hs
  have hdiv := Int.ediv_add_emod (c - s) patch
  have hm0 : 0 ≤ (c - s) % patch := Int.emod_nonneg _ (by omega)
  have hmlt : (c - s) % patch < patch := Int.emod_lt_of_pos _ hp
  have hq0 : 0 ≤ (c - s) / patch := Int.ediv_nonneg (by omega) (by omega)
  set q := (c - s) / patch with hqdef
  have hql : q < nPatches0 image patch 0 := by
    have hlt : patch * q < patch * nPatches0 image patch 0 := by
      rw [hgrid]
      omega
    exact lt_of_mul_lt_mul_left hlt (le_of_lt hp)
  refine ⟨s + patch * q, ?_, by omega, by omega⟩
  rw [hplan]
  refine mem_axisStarts.mpr ⟨q.toNat, ?_, ?_⟩
  · show (q.toNat : ℤ) < nPatches0 image patch 0
    omega
  · show s + patch * q = s + (patch - 0) * (q.toNat : ℤ)
    have : ((q.toNat : ℤ)) = q := by omega
    rw [this]
    ring

/-! ## Claim theorems -/

/-- C9 counterexample: with `image_shape = 2`, `patch_shape = 10`,
`overlap = 5` (which satisfies the claim's precondition `0 ≤ overlap <
patch_shape`), step 2's formula yields `n_patches = 0`, not `≥ 1`: the claim's
universal statement is false without the extra assumption
`overlap < image_shape`. -/
theorem C9_counterexample :
    (0 : ℤ) ≤ 5 ∧ (5 : ℤ) < 10 ∧ ¬(1 ≤ nPatches0 2 10 5) := by
  refine ⟨by norm_num, by norm_num, ?_⟩
  rw [nPatches0_2_10_5]
  norm_num

/-- C9 (amended): for every `image_shape`, `patch_shape` and `overlap` with
`0 ≤ overlap < patch_shape` *and* `overlap < image_shape` on every axis —
including when `patch_shape` exceeds `image_shape` — step 2's formula yields
`n_patches ≥ 1` on every axis, and `calc_patch_indices` emits at least one
placement. -/
theorem C9_min_one_patch (image patch overlap : I3) (rand : Bool) (r : I3)
    (h1 : 0 ≤ overlap.1) (h2 : overlap.1 < patch.1) (h3 : overlap.1 < image.1)
    (h4 : 0 ≤ overlap.2.1) (h5 : overlap.2.1 < patch.2.1) (h6 : overlap.2.1 < image.2.1)
    (h7 : 0 ≤ overlap.2.2) (h8 : overlap.2.2 < patch.2.2) (h9 : overlap.2.2 < image.2.2) :
    1 ≤ nPatches0 image.1 patch.1 overlap.1 ∧
    1 ≤ nPatches0 image.2.1 patch.2.1 overlap.2.1 ∧
    1 ≤ nPatches0 image.2.2 patch.2.2 overlap.2.2 ∧
    (calcPatchIndices image patch overlap rand r).1 ≠ [] := by
  have hn1 := nPatches0_pos h2 h3
  have hn2 := nPatches0_pos h5 h6
  have hn3 := nPatches0_pos h8 h9
  refine ⟨hn1, hn2, hn3, ?_⟩
  apply List.ne_nil_of_mem (a := ((calcAxis image.1 patch.1 overlap.1 rand r.1).start,
    (calcAxis image.2.1 patch.2.1 overlap.2.1 rand r.2.1).start,
    (calcAxis image.2.2 patch.2.2 overlap.2.2 rand r.2.2).start))
  exact mem_calcPatchIndices.mpr
    ⟨start_mem_axisStarts rand r.1 hn1, start_mem_axisStarts rand r.2.1 hn2,
     start_mem_axisStarts rand r.2.2 hn3⟩

/-- C9 witness: the amended theorem applied at image `32³`, patch `8³`,
overlap `0`, non-random mode. -/
theorem C9_witness :
    ((0 : ℤ) ≤ 0 ∧ (0 : ℤ) < 8 ∧ (0 : ℤ) < 32) ∧
    (1 ≤ nPatches0 32 8 0 ∧ 1 ≤ nPatches0 32 8 0 ∧ 1 ≤ nPatches0 32 8 0 ∧
      (calcPatchIndices (32, 32, 32) (8, 8, 8) (0, 0, 0) false (0, 0, 0)).1 ≠ []) :=
  ⟨⟨by norm_num, by norm_num, by norm_num⟩,
   C9_min_one_patch (32, 32, 32) (8, 8, 8) (0, 0, 0) false (0, 0, 0)
     (by norm_num) (by norm_num) (by norm_num) (by norm_num) (by norm_num)
     (by norm_num) (by norm_num) (by norm_num) (by norm_num)⟩

/-- C2 counterexample: the claim quantifies over both values of the randomize
flag, but with `randomize_offset = False` the minimum-overflow enforcement
never runs: for volume `32³`, patch `8³`, overlap `0` the returned overflow is
`0`, which is less than `0.25 * 8 = 2`. -/
theorem C2_counterexample :
    ((0 : ℤ) ≤ 0 ∧ (0 : ℤ) < 8) ∧
    (calcPatchIndices (32, 32, 32) (8, 8, 8) (0, 0, 0) false (0, 0, 0)).2 = (0, 0, 0) ∧
    ¬((1 / 4 : ℚ) * 8
        ≤ (((calcPatchIndices (32, 32, 32) (8, 8, 8) (0, 0, 0) false
            (0, 0, 0)).2.1 : ℤ) : ℚ)) := by
  have h : (calcPatchIndices (32, 32, 32) (8, 8, 8) (0, 0, 0) false (0, 0, 0)).2
      = ((0 : ℤ), (0 : ℤ), (0 : ℤ)) := by
    show ((calcAxis 32 8 0 false 0).overflow, (calcAxis 32 8 0 false 0).overflow,
      (calcAxis 32 8 0 false 0).overflow) = ((0 : ℤ), (0 : ℤ), (0 : ℤ))
    rw [calcAxis_32_8_false]
  refine ⟨⟨by norm_num, by norm_num⟩, h, ?_⟩
  rw [show (calcPatchIndices (32, 32, 32) (8, 8, 8) (0, 0, 0) false (0, 0, 0)).2.1
      = ((0 : ℤ)) from by rw [h]]
  norm_num

/-- C2 (amended): for every call to `calc_patch_indices` with
`randomize_offset = True` (the only branch that runs the minimum-overflow
enforcement) and `0 ≤ overlap < patch_shape` on every axis, the returned
overflow satisfies `overflow ≥ 0.25 * patch_shape` on every axis, for the
default `minimum_overflow_fraction = 0.25`. -/
theorem C2_min_overflow (image patch overlap : I3) (r : I3)
    (h2 : overlap.1 < patch.1) (h5 : overlap.2.1 < patch.2.1)
    (h8 : overlap.2.2 < patch.2.2) :
    (1 / 4 : ℚ) * (patch.1 : ℚ)
      ≤ (((calcPatchIndices image patch overlap true r).2.1 : ℤ) : ℚ) ∧
    (1 / 4 : ℚ) * (patch.2.1 : ℚ)
      ≤ (((calcPatchIndices image patch overlap true r).2.2.1 : ℤ) : ℚ) ∧
    (1 / 4 : ℚ) * (patch.2.2 : ℚ)
      ≤ (((calcPatchIndices image patch overlap true r).2.2.2 : ℤ) : ℚ) :=
  ⟨minOverflow_axis h2 r.1, minOverflow_axis h5 r.2.1, minOverflow_axis h8 r.2.2⟩

/-- C2 witness: the evenly divisible combination volume `32³`, patch `8³`,
overlap `0` named by the claim, with randomization on: the overflow is forced
up to `8 ≥ 0.25 * 8` by an extra patch (`n_patches` goes from 4 to 5). -/
theorem C2_witness :
    ((0 : ℤ) < 8 ∧ (calcAxis 32 8 0 true 0).overflow = 8 ∧
      (calcAxis 32 8 0 true 0).n = 5 ∧ nPatches0 32 8 0 = 4) ∧
    ((1 / 4 : ℚ) * ((8 : ℤ) : ℚ)
        ≤ (((calcPatchIndices (32, 32, 32) (8, 8, 8) (0, 0, 0) true
            (0, 0, 0)).2.1 : ℤ) : ℚ)) :=
  ⟨⟨by norm_num, by rw [calcAxis_32_8_true], by rw [calcAxis_32_8_true],
      nPatches0_32_8⟩,
   (C2_min_overflow (32, 32, 32) (8, 8, 8) (0, 0, 0) (0, 0, 0)
      (by norm_num) (by norm_num) (by norm_num)).1⟩

/-- C5 (confirmed): with `overlap = 0` and `randomize_offset = False`, for
every volume shape and patch shape with `0 < patch_shape ≤ volume_shape` per
axis, every coordinate of the volume lies inside at least one placement's
`[start, start + patch_shape)` range on every axis (so the placements cover
the volume with no gaps). -/
theorem C5_coverage (image patch : I3) (r : I3)
    (hp1 : 0 < patch.1) (hi1 : patch.1 ≤ image.1)
    (hp2 : 0 < patch.2.1) (hi2 : patch.2.1 ≤ image.2.1)
    (hp3 : 0 < patch.2.2) (hi3 : patch.2.2 ≤ image.2.2)
    (c : I3) (hc1 : 0 ≤ c.1) (hc1u : c.1 < image.1)
    (hc2 : 0 ≤ c.2.1) (hc2u : c.2.1 < image.2.1)
    (hc3 : 0 ≤ c.2.2) (hc3u : c.2.2 < image.2.2) :
    ∃ st ∈ (calcPatchIndices image patch (0, 0, 0) false r).1,
      st.1 ≤ c.1 ∧ c.1 < st.1 + patch.1 ∧
      st.2.1 ≤ c.2.1 ∧ c.2.1 < st.2.1 + patch.2.1 ∧
      st.2.2 ≤ c.2.2 ∧ c.2.2 < st.2.2 + patch.2.2 := by
  obtain ⟨s1, hm1, hl1, hu1⟩ := axis_coverage hp1 hi1 hc1 hc1u r.1
  obtain ⟨s2, hm2, hl2, hu2⟩ := axis_coverage hp2 hi2 hc2 hc2u r.2.1
  obtain ⟨s3, hm3, hl3, hu3⟩ := axis_coverage hp3 hi3 hc3 hc3u r.2.2
  exact ⟨(s1, s2, s3), mem_calcPatchIndices.mpr ⟨hm1, hm2, hm3⟩,
    hl1, hu1, hl2, hu2, hl3, hu3⟩

/-- C5 witness: volume `4³`, patch `2³`, coordinate `(3,3,3)` is covered. -/
theorem C5_witness :
    ((0 : ℤ) < 2 ∧ (2 : ℤ) ≤ 4 ∧ (0 : ℤ) ≤ 3 ∧ (3 : ℤ) < 4) ∧
    (∃ st ∈ (calcPatchIndices (4, 4, 4) (2, 2, 2) (0, 0, 0) false (0, 0, 0)).1,
      st.1 ≤ 3 ∧ (3 : ℤ) < st.1 + 2 ∧
      st.2.1 ≤ 3 ∧ (3 : ℤ) < st.2.1 + 2 ∧
      st.2.2 ≤ 3 ∧ (3 : ℤ) < st.2.2 + 2) :=
  ⟨⟨by norm_num, by norm_num, by norm_num, by norm_num⟩,
   C5_coverage (4, 4, 4) (2, 2, 2) (0, 0, 0) (by norm_num) (by norm_num)
     (by norm_num) (by norm_num) (by norm_num) (by norm_num) (3, 3, 3)
     (by norm_num) (by norm_num) (by norm_num) (by norm_num) (by norm_num)
     (by norm_num)⟩

/-- Packaging of `axis_start_bounds` over the three axes, with the overflow normalized to the
draw-independent `planOv`. -/
theorem placement_bounds_3d {sh patch overlap : I3} {rand : Bool} {r : I3}
    (hO : OverlapOK patch overlap) (hvr : ValidDraw sh patch overlap rand r)
    {st : I3} (hmem : st ∈ (calcPatchIndices sh patch overlap rand r).1) :
    (-(planOv sh patch overlap rand).1 ≤ st.1 ∧
      st.1 + patch.1 ≤ sh.1 + (planOv sh patch overlap rand).1) ∧
    (-(planOv sh patch overlap rand).2.1 ≤ st.2.1 ∧
      st.2.1 + patch.2.1 ≤ sh.2.1 + (planOv sh patch overlap rand).2.1) ∧
    (-(planOv sh patch overlap rand).2.2 ≤ st.2.2 ∧
      st.2.2 + patch.2.2 ≤ sh.2.2 + (planOv sh patch overlap rand).2.2) := by
  obtain ⟨ho1, hp1, ho2, hp2, ho3, hp3⟩ := hO
  obtain ⟨hm1, hm2, hm3⟩ := mem_calcPatchIndices.mp hmem
  have hb1 := axis_start_bounds rand r.1 ho1 hp1 (fun h => (hvr h).1) hm1
  have hb2 := axis_start_bounds rand r.2.1 ho2 hp2 (fun h => (hvr h).2.1) hm2
  have hb3 := axis_start_bounds rand r.2.2 ho3 hp3 (fun h => (hvr h).2.2) hm3
  rw [calcAxis_overflow_indep sh.1 patch.1 overlap.1 rand r.1 0] at hb1
  rw [calcAxis_overflow_indep sh.2.1 patch.2.1 overlap.2.1 rand r.2.1 0] at hb2
  rw [calcAxis_overflow_indep sh.2.2 patch.2.2 overlap.2.2 rand r.2.2 0] at hb3
  exact ⟨hb1, hb2, hb3⟩

/-- C3 (confirmed): for every volume of a constructed dataset, the stored
padding record has `pad_low = pad_high = overflow`, the padded signal and
label shapes equal `unpadded + pad_low + pad_high`, and every placement of
any planning call for that volume (with any valid random offsets `r`,
`0 ≤ r ≤ overflow`) satisfies `0 ≤ start + pad_low` and
`start + patch_shape + pad_low ≤ padded_shape` on every axis. -/
theorem C3_padding_bounds (vols : List RawVolume) (patch overlap : I3) (rand : Bool)
    (rs : ℕ → I3) (fS fL : ℕ → Vol) (hO : OverlapOK patch overlap)
    (hrs : ValidDraws vols patch overlap rand rs) (i : ℕ) (hi : i < vols.length) :
    (mkDataset vols patch overlap rand rs fS fL).padding.getD i none
      = some (planOv (volShape vols i) patch overlap rand,
              planOv (volShape vols i) patch overlap rand) ∧
    ((mkDataset vols patch overlap rand rs fS fL).data.getD i dummyVol).1
      = padShape (volShape vols i) (planOv (volShape vols i) patch overlap rand) ∧
    ((mkDataset vols patch overlap rand rs fS fL).labels.getD i dummyVol).1
      = padShape (volShape vols i) (planOv (volShape vols i) patch overlap rand) ∧
    (∀ r : I3, ValidDraw (volShape vols i) patch overlap rand r →
      ∀ st ∈ (calcPatchIndices (volShape vols i) patch overlap rand r).1,
        (0 ≤ st.1 + (planOv (volShape vols i) patch overlap rand).1 ∧
          st.1 + patch.1 + (planOv (volShape vols i) patch overlap rand).1
            ≤ (padShape (volShape vols i)
                (planOv (volShape vols i) patch overlap rand)).1) ∧
        (0 ≤ st.2.1 + (planOv (volShape vols i) patch overlap rand).2.1 ∧
          st.2.1 + patch.2.1 + (planOv (volShape vols i) patch overlap rand).2.1
            ≤ (padShape (volShape vols i)
                (planOv (volShape vols i) patch overlap rand)).2.1) ∧
        (0 ≤ st.2.2 + (planOv (volShape vols i) patch overlap rand).2.2 ∧
          st.2.2 + patch.2.2 + (planOv (volShape vols i) patch overlap rand).2.2
            ≤ (padShape (volShape vols i)
                (planOv (volShape vols i) patch overlap rand)).2.2)) := by
  have hG := @good_mk vols patch overlap rand rs fS fL hrs
  refine ⟨?_, hG.datashape i hi, hG.labelshape i hi, ?_⟩
  · exact mk_padding_getD vols patch overlap rand rs fS fL hi
  · intro r hvr st hmem
    obtain ⟨⟨b1l, b1u⟩, ⟨b2l, b2u⟩, b3l, b3u⟩ := placement_bounds_3d hO hvr hmem
    simp only [padShape]
    exact ⟨⟨by omega, by omega⟩, ⟨by omega, by omega⟩, by omega, by omega⟩

/-- The demonstration dataset used by witnesses: one `5×5×5` volume, patch
`4³`, overlap `0`, no randomization. -/
def demoVols : List RawVolume :=
  [⟨(5, 5, 5), fun x y z => x + 10 * y + 100 * z, fun x y z => x + y + z⟩]

def zeroDraw : ℕ → I3 := fun _ => (0, 0, 0)

def constFill : ℕ → Vol := fun _ _ _ _ => 7

def demoDS : DState :=
  mkDataset demoVols (4, 4, 4) (0, 0, 0) false zeroDraw constFill constFill

/-- C3 witness: the theorem applied to the demonstration dataset. -/
theorem C3_witness :
    (OverlapOK (4, 4, 4) (0, 0, 0) ∧
      ValidDraws demoVols (4, 4, 4) (0, 0, 0) false zeroDraw ∧
      0 < demoVols.length) ∧
    demoDS.padding.getD 0 none
      = some (planOv (volShape demoVols 0) (4, 4, 4) (0, 0, 0) false,
              planOv (volShape demoVols 0) (4, 4, 4) (0, 0, 0) false) := by
  have hO : OverlapOK (4, 4, 4) (0, 0, 0) := by norm_num [OverlapOK]
  have hV : ValidDraws demoVols (4, 4, 4) (0, 0, 0) false zeroDraw := by
    intro i hi h
    exact Bool.noConfusion h
  refine ⟨⟨hO, hV, by norm_num [demoVols]⟩, ?_⟩
  exact (C3_padding_bounds demoVols (4, 4, 4) (0, 0, 0) false zeroDraw constFill
    constFill hO hV 0 (by norm_num [demoVols])).1

/-- C4 (confirmed): for every volume of a constructed dataset (with nonneg
axis lengths), `get_original` returns signal and label volumes of exactly the
original shape whose every element equals the volume as loaded — for every
pad mode and constant (the border fills `fS`, `fL` are arbitrary). -/
theorem C4_get_original (vols : List RawVolume) (patch overlap : I3) (rand : Bool)
    (rs : ℕ → I3) (fS fL : ℕ → Vol) (hO : OverlapOK patch overlap)
    (i : ℕ) (hi : i < vols.length)
    (hs1 : 0 ≤ vols[i].shape.1) (hs2 : 0 ≤ vols[i].shape.2.1)
    (hs3 : 0 ≤ vols[i].shape.2.2) :
    (getOriginal (mkDataset vols patch overlap rand rs fS fL) i).1.1
      = vols[i].shape ∧
    (getOriginal (mkDataset vols patch overlap rand rs fS fL) i).2.1
      = vols[i].shape ∧
    ∀ x y z : ℤ, 0 ≤ x → x < vols[i].shape.1 → 0 ≤ y → y < vols[i].shape.2.1 →
      0 ≤ z → z < vols[i].shape.2.2 →
      (getOriginal (mkDataset vols patch overlap rand rs fS fL) i).1.2 x y z
          = vols[i].signal x y z ∧
      (getOriginal (mkDataset vols patch overlap rand rs fS fL) i).2.2 x y z
          = vols[i].label x y z := by
  obtain ⟨ho1, hp1, ho2, hp2, ho3, hp3⟩ := hO
  have hvs : volShape vols i = vols[i].shape := volShape_of_lt hi
  have hunpD : (mkDataset vols patch overlap rand rs fS fL).unpadded.getD i (0, 0, 0)
      = vols[i].shape := by
    rw [mk_unpadded, getD_map_of_lt _ _ _ _ hi]
  have hpadD := mk_padding_getD vols patch overlap rand rs fS fL hi
  have hdataD := mk_data_getD vols patch overlap rand rs fS fL hi
  have hlabD := mk_labels_getD vols patch overlap rand rs fS fL hi
  rw [hvs] at hpadD hdataD hlabD
  unfold getOriginal
  rw [hunpD, hpadD, hdataD, hlabD]
  simp only [Option.elim, ovPair, sliceVol, padVol]
  set sh := vols[i].shape with hsh
  set ov := planOv sh patch overlap rand with hovd
  have hov1 : 0 ≤ ov.1 := by
    rw [hovd]
    exact calcAxis_overflow_nonneg rand 0 hp1
  have hov2 : 0 ≤ ov.2.1 := by
    rw [hovd]
    exact calcAxis_overflow_nonneg rand 0 hp2
  have hov3 : 0 ≤ ov.2.2 := by
    rw [hovd]
    exact calcAxis_overflow_nonneg rand 0 hp3
  have e1 : sliceIndex ov.1 (sh.1 + ov.1 + ov.1) = ov.1 :=
    sliceIndex_of_in hov1 (by omega)
  have e2 : sliceIndex ov.2.1 (sh.2.1 + ov.2.1 + ov.2.1) = ov.2.1 :=
    sliceIndex_of_in hov2 (by omega)
  have e3 : sliceIndex ov.2.2 (sh.2.2 + ov.2.2 + ov.2.2) = ov.2.2 :=
    sliceIndex_of_in hov3 (by omega)
  have l1 : sliceLen ov.1 (ov.1 + sh.1) (sh.1 + ov.1 + ov.1) = sh.1 := by
    rw [sliceLen_exact hov1 (by omega) (by omega)]
    ring
  have l2 : sliceLen ov.2.1 (ov.2.1 + sh.2.1) (sh.2.1 + ov.2.1 + ov.2.1) = sh.2.1 := by
    rw [sliceLen_exact hov2 (by omega) (by omega)]
    ring
  have l3 : sliceLen ov.2.2 (ov.2.2 + sh.2.2) (sh.2.2 + ov.2.2 + ov.2.2) = sh.2.2 := by
    rw [sliceLen_exact hov3 (by omega) (by omega)]
    ring
  refine ⟨?_, ?_, ?_⟩
  · rw [l1, l2, l3]
  · rw [l1, l2, l3]
  · intro x y z hx0 hx1 hy0 hy1 hz0 hz1
    rw [e1, e2, e3]
    rw [if_pos (by omega), if_pos (by omega)]
    constructor
    · congr 1 <;> ring
    · congr 1 <;> ring

/-- C4 witness: the demonstration dataset, element `(1, 0, 3)`. -/
theorem C4_witness :
    (OverlapOK (4, 4, 4) (0, 0, 0) ∧ 0 < demoVols.length ∧
      ((0 : ℤ) ≤ 1 ∧ (1 : ℤ) < 5) ∧ ((0 : ℤ) ≤ 0 ∧ (0 : ℤ) < 5) ∧
      ((0 : ℤ) ≤ 3 ∧ (3 : ℤ) < 5)) ∧
    ((getOriginal demoDS 0).1.1 = (5, 5, 5) ∧
      (getOriginal demoDS 0).1.2 1 0 3 = 301 ∧
      (getOriginal demoDS 0).2.2 1 0 3 = 4) := by
  have hO : OverlapOK (4, 4, 4) (0, 0, 0) := by norm_num [OverlapOK]
  have h0 : 0 < demoVols.length := by norm_num [demoVols]
  obtain ⟨ha, hb, hc⟩ := C4_get_original demoVols (4, 4, 4) (0, 0, 0) false
    zeroDraw constFill constFill hO 0 h0 (by norm_num [demoVols])
    (by norm_num [demoVols]) (by norm_num [demoVols])
  obtain ⟨hsig, hlab⟩ := hc 1 0 3 (by norm_num) (by norm_num [demoVols])
    (by norm_num) (by norm_num [demoVols]) (by norm_num) (by norm_num [demoVols])
  refine ⟨⟨hO, h0, ⟨by norm_num, by norm_num⟩, ⟨by norm_num, by norm_num⟩,
    ⟨by norm_num, by norm_num⟩⟩, ?_, ?_, ?_⟩
  · unfold demoDS
    rw [ha]
    norm_num [demoVols]
  · unfold demoDS
    rw [hsig]
    norm_num [demoVols]
  · unfold demoDS
    rw [hlab]
    norm_num [demoVols]

/-- C7 (confirmed): re-invoking `initialize_patch_indices` on a dataset state
reached by construction plus any number of re-randomizations rebuilds
`patch_indices` from scratch (the result is independent of the previous patch
index) but leaves `padding_boundary`, `data`, `labels` and
`unpadded_data_shape` unchanged. -/
theorem C7_reinit_frame (vols : List RawVolume) (patch overlap : I3) (rand : Bool)
    (rs : ℕ → I3) (fS fL : ℕ → Vol) (l : List (ℕ → I3))
    (hrs : ValidDraws vols patch overlap rand rs)
    (hl : ∀ g ∈ l, ValidDraws vols patch overlap rand g) (g : ℕ → I3) :
    (initializePatchIndices (reinits (mkDataset vols patch overlap rand rs fS fL) l)
        g).padding
      = (reinits (mkDataset vols patch overlap rand rs fS fL) l).padding ∧
    (initializePatchIndices (reinits (mkDataset vols patch overlap rand rs fS fL) l)
        g).data
      = (reinits (mkDataset vols patch overlap rand rs fS fL) l).data ∧
    (initializePatchIndices (reinits (mkDataset vols patch overlap rand rs fS fL) l)
        g).labels
      = (reinits (mkDataset vols patch overlap rand rs fS fL) l).labels ∧
    (initializePatchIndices (reinits (mkDataset vols patch overlap rand rs fS fL) l)
        g).unpadded
      = (reinits (mkDataset vols patch overlap rand rs fS fL) l).unpadded ∧
    ∀ pi : List (ℕ × I3),
      (initializePatchIndices
          { reinits (mkDataset vols patch overlap rand rs fS fL) l with
            patchIndices := pi } g).patchIndices
        = (initializePatchIndices
            (reinits (mkDataset vols patch overlap rand rs fS fL) l) g).patchIndices := by
  have hG : Good vols patch overlap rand
      (reinits (mkDataset vols patch overlap rand rs fS fL) l) :=
    good_reinits l _ (good_mk hrs) hl
  exact ⟨init_padding_of_set _ g (good_padding_ne_none hG), init_data _ g,
    init_labels _ g, init_unpadded _ g, fun pi => rfl⟩

/-- C7 witness: the theorem applied to the demonstration dataset with no
intermediate re-randomizations and a fresh draw of zero offsets. -/
theorem C7_witness :
    (ValidDraws demoVols (4, 4, 4) (0, 0, 0) false zeroDraw ∧ ([] : List (ℕ → I3)) = []) ∧
    (initializePatchIndices (reinits demoDS []) zeroDraw).padding
      = (reinits demoDS []).padding ∧
    (initializePatchIndices (reinits demoDS []) zeroDraw).data
      = (reinits demoDS []).data := by
  have hV : ValidDraws demoVols (4, 4, 4) (0, 0, 0) false zeroDraw := by
    intro i hi h
    exact Bool.noConfusion h
  have h := C7_reinit_frame demoVols (4, 4, 4) (0, 0, 0) false zeroDraw constFill
    constFill [] hV (fun g hg => absurd hg (List.not_mem_nil g)) zeroDraw
  exact ⟨⟨hV, rfl⟩, h.1, h.2.1⟩

/-- C10 (confirmed): `__getitem__` casts the stored start coordinates to
`np.int16`; the returned `patch_index` rows are the wrapped start and wrapped
start plus `patch_shape` (the end is computed after int64 promotion, so only
the start wraps), the validity mask is computed from the wrapped start, and
whenever the stored start fits in `[-32768, 32767]` the returned bounds equal
the exact integer values. -/
theorem C10_int16_bounds (s : DState) (idx di : ℕ) (st : I3) (t : PatchResult)
    (hidx : s.patchIndices.get? idx = some (di, st))
    (hok : getitem s idx = Except.ok t) :
    t.bounds = ((wrap16 st.1, wrap16 st.2.1, wrap16 st.2.2),
                (wrap16 st.1 + s.patchShape.1, wrap16 st.2.1 + s.patchShape.2.1,
                 wrap16 st.2.2 + s.patchShape.2.2)) ∧
    t.valid = ((clip (wrap16 st.1) 0 (s.unpadded.getD di (0, 0, 0)).1 - wrap16 st.1,
                clip (wrap16 st.2.1) 0 (s.unpadded.getD di (0, 0, 0)).2.1
                  - wrap16 st.2.1,
                clip (wrap16 st.2.2) 0 (s.unpadded.getD di (0, 0, 0)).2.2
                  - wrap16 st.2.2),
               (clip (wrap16 st.1 + s.patchShape.1) 0
                  (s.unpadded.getD di (0, 0, 0)).1 - wrap16 st.1,
                clip (wrap16 st.2.1 + s.patchShape.2.1) 0
                  (s.unpadded.getD di (0, 0, 0)).2.1 - wrap16 st.2.1,
                clip (wrap16 st.2.2 + s.patchShape.2.2) 0
                  (s.unpadded.getD di (0, 0, 0)).2.2 - wrap16 st.2.2)) ∧
    (Fits16 st →
      t.bounds = (st, (st.1 + s.patchShape.1, st.2.1 + s.patchShape.2.1,
                       st.2.2 + s.patchShape.2.2))) := by
  unfold getitem at hok
  rw [hidx] at hok
  split at hok
  · rename_i heq
    exact Option.noConfusion heq
  · rename_i di' st' heq
    injection heq with heq2
    injection heq2 with hdi hst
    subst hdi
    subst hst
    simp only [] at hok
    split at hok
    · injection hok with h
      subst h
      refine ⟨rfl, rfl, ?_⟩
      rintro ⟨f1, f2, f3, f4, f5, f6⟩
      rw [wrap16_eq_self f1 f2, wrap16_eq_self f3 f4, wrap16_eq_self f5 f6]
    · exact absurd hok (by simp)

/-! ## Concrete datasets for witnesses and counterexamples -/

theorem calcPatchIndices_demo :
    (calcPatchIndices (5, 5, 5) (4, 4, 4) (0, 0, 0) false (0, 0, 0)).1
      = [(-2, -2, -2), (-2, -2, 2), (-2, 2, -2), (-2, 2, 2),
         (2, -2, -2), (2, -2, 2), (2, 2, -2), (2, 2, 2)] := by
  simp only [calcPatchIndices]
  rw [calcAxis_5_4_false]
  decide

theorem demoDS_patchIndices :
    demoDS.patchIndices
      = [(0, (-2, -2, -2)), (0, (-2, -2, 2)), (0, (-2, 2, -2)), (0, (-2, 2, 2)),
         (0, (2, -2, -2)), (0, (2, -2, 2)), (0, (2, 2, -2)), (0, (2, 2, 2))] := by
  have key : demoDS.patchIndices
      = (calcPatchIndices (5, 5, 5) (4, 4, 4) (0, 0, 0) false (0, 0, 0)).1.map
          (fun st => (0, st)) := by
    show (initializePatchIndices (initState demoVols (4, 4, 4) (0, 0, 0) false)
        zeroDraw).patchIndices = _
    rw [init_patchIndices,
      show (initState demoVols (4, 4, 4) (0, 0, 0) false).data.length = 1 from rfl,
      show List.range 1 = [0] from rfl, List.flatMap_cons, List.flatMap_nil,
      List.append_nil]
    rfl
  rw [key, calcPatchIndices_demo]
  decide

/-- C10 witness: the theorem applied at the demonstration dataset's first
patch, whose stored start `(-2,-2,-2)` fits in `np.int16`: the returned
unpadded bounds are the exact values `((-2,-2,-2), (2,2,2))`. -/
theorem C10_witness :
    (demoDS.patchIndices.get? 0 = some (0, (-2, -2, -2)) ∧
      Fits16 ((-2 : ℤ), (-2 : ℤ), (-2 : ℤ))) ∧
    (getitem demoDS 0).toOption.map PatchResult.bounds
      = some ((((-2 : ℤ), (-2 : ℤ), (-2 : ℤ)), ((2 : ℤ), (2 : ℤ), (2 : ℤ)))) := by
  have hidx : demoDS.patchIndices.get? 0 = some (0, (-2, -2, -2)) := by
    rw [demoDS_patchIndices]
    rfl
  have hfit : Fits16 ((-2 : ℤ), (-2 : ℤ), (-2 : ℤ)) := by norm_num [Fits16]
  have hG : Good demoVols (4, 4, 4) (0, 0, 0) false demoDS :=
    good_mk (fun _ _ h => Bool.noConfusion h)
  obtain ⟨t, hok, -, -, -, -, -⟩ :=
    getitem_ok_core hG (by norm_num [OverlapOK]) hidx hfit
  have h10 := C10_int16_bounds demoDS 0 0 (-2, -2, -2) t hidx hok
  refine ⟨⟨hidx, hfit⟩, ?_⟩
  rw [hok]
  simp only [Except.toOption, Option.map]
  rw [h10.2.2 hfit]
  rfl

def failVols : List RawVolume :=
  [⟨(8, 8, 8), fun _ _ _ => 1, fun _ _ _ => 2⟩]

def failDraw : ℕ → I3 := fun _ => (39992, 39992, 39992)

/-- A legitimately constructed dataset on which the `np.int16` cast in
`__getitem__` wraps the stored start `-39992` to `25544` and the shape
assertion fires: one `8×8×8` volume, patch `40000³`, overlap `0`,
randomization on, with the (valid) maximal random offsets `39992`. -/
def failDS : DState :=
  mkDataset failVols (40000, 40000, 40000) (0, 0, 0) true failDraw
    constFill constFill

theorem failDraw_valid :
    ValidDraws failVols (40000, 40000, 40000) (0, 0, 0) true failDraw := by
  intro i hi h
  have hi0 : i = 0 := by
    have : failVols.length = 1 := rfl
    omega
  subst hi0
  have hov : ((39992 : ℤ)) ≤ (calcAxis 8 40000 0 true 39992).overflow := by
    rw [calcAxis_8_40000_true]
  exact ⟨⟨by norm_num [failDraw], hov⟩, ⟨by norm_num [failDraw], hov⟩, by norm_num [failDraw], hov⟩

theorem calcPatchIndices_fail :
    (calcPatchIndices (8, 8, 8) (40000, 40000, 40000) (0, 0, 0) true
        (39992, 39992, 39992)).1 = [(-39992, -39992, -39992)] := by
  simp only [calcPatchIndices]
  rw [calcAxis_8_40000_true]
  decide

theorem failDS_patchIndices :
    failDS.patchIndices = [(0, (-39992, -39992, -39992))] := by
  have key : failDS.patchIndices
      = (calcPatchIndices (8, 8, 8) (40000, 40000, 40000) (0, 0, 0) true
          (39992, 39992, 39992)).1.map (fun st => (0, st)) := by
    show (initializePatchIndices
        (initState failVols (40000, 40000, 40000) (0, 0, 0) true)
        failDraw).patchIndices = _
    rw [init_patchIndices,
      show (initState failVols (40000, 40000, 40000) (0, 0, 0) true).data.length = 1
        from rfl,
      show List.range 1 = [0] from rfl, List.flatMap_cons, List.flatMap_nil,
      List.append_nil]
    rfl
  rw [key, calcPatchIndices_fail]
  decide

theorem failDS_padding :
    failDS.padding.getD 0 none
      = some ((((39992 : ℤ), 39992, 39992) : I3),
              (((39992 : ℤ), 39992, 39992) : I3)) := by
  unfold failDS
  rw [mk_padding_getD failVols (40000, 40000, 40000) (0, 0, 0) true failDraw
    constFill constFill (by norm_num [failVols])]
  show some (ovPair (8, 8, 8) (40000, 40000, 40000) (0, 0, 0) true) = _
  simp only [ovPair, planOv]
  rw [calcAxis_8_40000_true]

theorem failDS_data_shape :
    (failDS.data.getD 0 dummyVol).1 = (((79992 : ℤ), 79992, 79992) : I3) := by
  have hG : Good failVols (40000, 40000, 40000) (0, 0, 0) true failDS :=
    good_mk failDraw_valid
  rw [hG.datashape 0 (by norm_num [failVols])]
  show padShape (8, 8, 8) (planOv (8, 8, 8) (40000, 40000, 40000) (0, 0, 0) true) = _
  simp only [padShape, planOv]
  rw [calcAxis_8_40000_true]
  decide

theorem failDS_labels_shape :
    (failDS.labels.getD 0 dummyVol).1 = (((79992 : ℤ), 79992, 79992) : I3) := by
  have hG : Good failVols (40000, 40000, 40000) (0, 0, 0) true failDS :=
    good_mk failDraw_valid
  rw [hG.labelshape 0 (by norm_num [failVols])]
  show padShape (8, 8, 8) (planOv (8, 8, 8) (40000, 40000, 40000) (0, 0, 0) true) = _
  simp only [padShape, planOv]
  rw [calcAxis_8_40000_true]
  decide

/-- Evaluating `__getitem__` on the wrapping dataset: the extracted patch has
extent `14456 ≠ 40000` on every axis, so the shape assertion fires. -/
theorem failDS_getitem_eval :
    getitem failDS 0 = Except.error GetErr.assertionError := by
  have hidx : failDS.patchIndices.get? 0 = some (0, (-39992, -39992, -39992)) := by
    rw [failDS_patchIndices]
    rfl
  have hd1 : (failDS.data.getD 0 dummyVol).1.1 = (79992 : ℤ) := by
    rw [failDS_data_shape]
  have hd2 : (failDS.data.getD 0 dummyVol).1.2.1 = (79992 : ℤ) := by
    rw [failDS_data_shape]
  have hd3 : (failDS.data.getD 0 dummyVol).1.2.2 = (79992 : ℤ) := by
    rw [failDS_data_shape]
  have hl1 : (failDS.labels.getD 0 dummyVol).1.1 = (79992 : ℤ) := by
    rw [failDS_labels_shape]
  have hl2 : (failDS.labels.getD 0 dummyVol).1.2.1 = (79992 : ℤ) := by
    rw [failDS_labels_shape]
  have hl3 : (failDS.labels.getD 0 dummyVol).1.2.2 = (79992 : ℤ) := by
    rw [failDS_labels_shape]
  unfold getitem
  rw [hidx]
  simp only [sliceVol, Option.elim, failDS_padding,
    show failDS.unpadded.getD 0 (0, 0, 0) = (((8 : ℤ), 8, 8) : I3) from rfl,
    show failDS.patchShape = (((40000 : ℤ), 40000, 40000) : I3) from rfl,
    show wrap16 (-39992) = (25544 : ℤ) from by decide,
    hd1, hd2, hd3, hl1, hl2, hl3]
  split
  · rename_i hcond
    exact absurd hcond.1 (by decide)
  · rfl

/-- C1 (code bug): the dataset `failDS` satisfies the claim's precondition
(`0 ≤ overlap < patch_shape`, valid random draws), its patch index has one
in-range entry, yet `__getitem__(0)` ends in the shape assertion firing:
because `__getitem__` casts starts to `np.int16`, the stored start `-39992`
wraps to `25544` and the padded slice is cut off at the end of the array
(extent `14456` instead of `40000`). -/
theorem C1_assertion_fires :
    OverlapOK (40000, 40000, 40000) (0, 0, 0) ∧
    ValidDraws failVols (40000, 40000, 40000) (0, 0, 0) true failDraw ∧
    dataLen failDS = 1 ∧
    getitem failDS 0 = Except.error GetErr.assertionError := by
  refine ⟨by norm_num [OverlapOK], failDraw_valid, ?_, failDS_getitem_eval⟩
  rw [dataLen, failDS_patchIndices]
  rfl

def wrapVols : List RawVolume :=
  [⟨(8, 8, 8), fun _ _ _ => 3, fun _ _ _ => 4⟩]

def wrapDraw : ℕ → I3 := fun _ => (70000, 70000, 70000)

/-- A dataset on which the `np.int16` cast wraps the stored start `-70000` to
`-4464` but the slice still has full extent, so `__getitem__` succeeds while
its validity mask is computed from the wrapped start: one `8×8×8` volume,
patch `100000³`, overlap `0`, randomization on, drawn offsets `70000`
(valid, since the overflow is `99992`). -/
def wrapDS : DState :=
  mkDataset wrapVols (100000, 100000, 100000) (0, 0, 0) true wrapDraw
    constFill constFill

theorem wrapDraw_valid :
    ValidDraws wrapVols (100000, 100000, 100000) (0, 0, 0) true wrapDraw := by
  intro i hi h
  have hi0 : i = 0 := by
    have : wrapVols.length = 1 := rfl
    omega
  subst hi0
  have hov : ((70000 : ℤ)) ≤ (calcAxis 8 100000 0 true 70000).overflow := by
    rw [calcAxis_8_100000_true]
    norm_num
  exact ⟨⟨by norm_num [wrapDraw], hov⟩, ⟨by norm_num [wrapDraw], hov⟩,
    by norm_num [wrapDraw], hov⟩

theorem calcPatchIndices_wrap :
    (calcPatchIndices (8, 8, 8) (100000, 100000, 100000) (0, 0, 0) true
        (70000, 70000, 70000)).1 = [(-70000, -70000, -70000)] := by
  simp only [calcPatchIndices]
  rw [calcAxis_8_100000_true]
  decide

theorem wrapDS_patchIndices :
    wrapDS.patchIndices = [(0, (-70000, -70000, -70000))] := by
  have key : wrapDS.patchIndices
      = (calcPatchIndices (8, 8, 8) (100000, 100000, 100000) (0, 0, 0) true
          (70000, 70000, 70000)).1.map (fun st => (0, st)) := by
    show (initializePatchIndices
        (initState wrapVols (100000, 100000, 100000) (0, 0, 0) true)
        wrapDraw).patchIndices = _
    rw [init_patchIndices,
      show (initState wrapVols (100000, 100000, 100000) (0, 0, 0) true).data.length
        = 1 from rfl,
      show List.range 1 = [0] from rfl, List.flatMap_cons, List.flatMap_nil,
      List.append_nil]
    rfl
  rw [key, calcPatchIndices_wrap]
  decide

theorem wrapDS_padding :
    wrapDS.padding.getD 0 none
      = some ((((99992 : ℤ), 99992, 99992) : I3),
              (((99992 : ℤ), 99992, 99992) : I3)) := by
  unfold wrapDS
  rw [mk_padding_getD wrapVols (100000, 100000, 100000) (0, 0, 0) true wrapDraw
    constFill constFill (by norm_num [wrapVols])]
  show some (ovPair (8, 8, 8) (100000, 100000, 100000) (0, 0, 0) true) = _
  simp only [ovPair, planOv]
  rw [calcAxis_8_100000_true]

theorem wrapDS_data_shape :
    (wrapDS.data.getD 0 dummyVol).1 = (((199992 : ℤ), 199992, 199992) : I3) := by
  have hG : Good wrapVols (100000, 100000, 100000) (0, 0, 0) true wrapDS :=
    good_mk wrapDraw_valid
  rw [hG.datashape 0 (by norm_num [wrapVols])]
  show padShape (8, 8, 8)
    (planOv (8, 8, 8) (100000, 100000, 100000) (0, 0, 0) true) = _
  simp only [padShape, planOv]
  rw [calcAxis_8_100000_true]
  decide

theorem wrapDS_labels_shape :
    (wrapDS.labels.getD 0 dummyVol).1 = (((199992 : ℤ), 199992, 199992) : I3) := by
  have hG : Good wrapVols (100000, 100000, 100000) (0, 0, 0) true wrapDS :=
    good_mk wrapDraw_valid
  rw [hG.labelshape 0 (by norm_num [wrapVols])]
  show padShape (8, 8, 8)
    (planOv (8, 8, 8) (100000, 100000, 100000) (0, 0, 0) true) = _
  simp only [padShape, planOv]
  rw [calcAxis_8_100000_true]
  decide

/-- Evaluating `__getitem__` on `wrapDS`: the assertion passes (full extent
`100000`) and the returned validity mask is computed from the wrapped start
`-4464`, giving `[4464, 4472)` per axis. -/
theorem wrapDS_getitem_eval :
    ∃ t : PatchResult, getitem wrapDS 0 = Except.ok t ∧
      t.valid = ((((4464 : ℤ), 4464, 4464) : I3), (((4472 : ℤ), 4472, 4472) : I3)) := by
  have hidx : wrapDS.patchIndices.get? 0 = some (0, (-70000, -70000, -70000)) := by
    rw [wrapDS_patchIndices]
    rfl
  have hd1 : (wrapDS.data.getD 0 dummyVol).1.1 = (199992 : ℤ) := by
    rw [wrapDS_data_shape]
  have hd2 : (wrapDS.data.getD 0 dummyVol).1.2.1 = (199992 : ℤ) := by
    rw [wrapDS_data_shape]
  have hd3 : (wrapDS.data.getD 0 dummyVol).1.2.2 = (199992 : ℤ) := by
    rw [wrapDS_data_shape]
  have hl1 : (wrapDS.labels.getD 0 dummyVol).1.1 = (199992 : ℤ) := by
    rw [wrapDS_labels_shape]
  have hl2 : (wrapDS.labels.getD 0 dummyVol).1.2.1 = (199992 : ℤ) := by
    rw [wrapDS_labels_shape]
  have hl3 : (wrapDS.labels.getD 0 dummyVol).1.2.2 = (199992 : ℤ) := by
    rw [wrapDS_labels_shape]
  unfold getitem
  rw [hidx]
  simp only [sliceVol, Option.elim, wrapDS_padding,
    show wrapDS.unpadded.getD 0 (0, 0, 0) = (((8 : ℤ), 8, 8) : I3) from rfl,
    show wrapDS.patchShape = (((100000 : ℤ), 100000, 100000) : I3) from rfl,
    show wrap16 (-70000) = (-4464 : ℤ) from by decide,
    hd1, hd2, hd3, hl1, hl2, hl3]
  split
  · exact ⟨_, rfl, by decide⟩
  · rename_i hcond
    exact absurd (by decide) hcond

/-- C6 counterexample: on `wrapDS` the first (and only) patch has stored
start `-70000`; `__getitem__(0)` succeeds and returns
`valid_region = [4464, 4472)` per axis, computed from the int16-wrapped start
`-4464`, whereas the claim's formula
`clip(start, start + patch_shape; to [0, unpadded_shape]) - start` with the
stored start gives `[70000, 70008)`. -/
theorem C6_counterexample :
    wrapDS.patchIndices.get? 0 = some (0, (-70000, -70000, -70000)) ∧
    (∃ t : PatchResult, getitem wrapDS 0 = Except.ok t ∧
      t.valid.1.1 = 4464 ∧
      clip (-70000) 0 (volShape wrapVols 0).1 - (-70000) = 70000 ∧
      t.valid.1.1 ≠ clip (-70000) 0 (volShape wrapVols 0).1 - (-70000)) := by
  obtain ⟨t, hok, hv⟩ := wrapDS_getitem_eval
  refine ⟨by rw [wrapDS_patchIndices]; rfl, t, hok, ?_, ?_, ?_⟩
  · rw [hv]
  · decide
  · rw [hv]
    decide

/-- C6 (amended): for every in-range flat index of a constructed dataset
(after any number of re-randomizations) whose stored start coordinates fit in
`np.int16`, `__getitem__` succeeds and the returned `valid_region` equals
`clip(start, start + patch_shape; to [0, unpadded_shape]) - start` per axis
— in particular a patch fully inside the volume yields `[0, patch_shape)`
and a start of `-3` with patch size 10 yields `[3, 10)`.  For starts outside
the int16 range the mask is computed from the wrapped start instead. -/
theorem C6_valid_region (vols : List RawVolume) (patch overlap : I3) (rand : Bool)
    (rs : ℕ → I3) (fS fL : ℕ → Vol) (l : List (ℕ → I3))
    (hO : OverlapOK patch overlap)
    (hrs : ValidDraws vols patch overlap rand rs)
    (hl : ∀ g ∈ l, ValidDraws vols patch overlap rand g)
    (idx di : ℕ) (st : I3)
    (hidx : (reinits (mkDataset vols patch overlap rand rs fS fL)
        l).patchIndices.get? idx = some (di, st))
    (hfit : Fits16 st) :
    ∃ t : PatchResult,
      getitem (reinits (mkDataset vols patch overlap rand rs fS fL) l) idx
        = Except.ok t ∧
      t.valid = ((clip st.1 0 (volShape vols di).1 - st.1,
                  clip st.2.1 0 (volShape vols di).2.1 - st.2.1,
                  clip st.2.2 0 (volShape vols di).2.2 - st.2.2),
                 (clip (st.1 + patch.1) 0 (volShape vols di).1 - st.1,
                  clip (st.2.1 + patch.2.1) 0 (volShape vols di).2.1 - st.2.1,
                  clip (st.2.2 + patch.2.2) 0 (volShape vols di).2.2 - st.2.2)) := by
  have hG := good_reinits l (mkDataset vols patch overlap rand rs fS fL)
    (@good_mk vols patch overlap rand rs fS fL hrs) hl
  obtain ⟨t, hok, -, -, -, -, hv⟩ := getitem_ok_core hG hO hidx hfit
  exact ⟨t, hok, hv⟩

/-- C6 witness: the first patch of the demonstration dataset, stored start
`(-2,-2,-2)` with patch size 4 and volume size 5: the valid region is
`[2, 4)` per axis, as the formula prescribes. -/
theorem C6_witness :
    (demoDS.patchIndices.get? 0 = some (0, (-2, -2, -2)) ∧
      Fits16 ((-2 : ℤ), -2, -2)) ∧
    (∃ t : PatchResult, getitem demoDS 0 = Except.ok t ∧
      t.valid = ((((2 : ℤ), 2, 2) : I3), (((4 : ℤ), 4, 4) : I3))) := by
  have hidx : demoDS.patchIndices.get? 0 = some (0, (-2, -2, -2)) := by
    rw [demoDS_patchIndices]
    rfl
  have hfit : Fits16 ((-2 : ℤ), -2, -2) := by norm_num [Fits16]
  obtain ⟨t, hok, hv⟩ := C6_valid_region demoVols (4, 4, 4) (0, 0, 0) false
    zeroDraw constFill constFill [] (by norm_num [OverlapOK])
    (fun _ _ h => Bool.noConfusion h) (fun g hg => absurd hg (List.not_mem_nil g))
    0 0 (-2, -2, -2) hidx hfit
  refine ⟨⟨hidx, hfit⟩, t, hok, ?_⟩
  rw [hv]
  decide

/-- C8 (amended): on a constructed dataset (after any number of
re-randomizations), `__getitem__(flat_index)` fails with the IndexError-
equivalent whenever `flat_index ≥ __len__()`, and every in-range index has an
entry and succeeds with a patch tuple provided the entry's stored start
coordinates fit in `np.int16` (otherwise the shape assertion may fire
instead). -/
theorem C8_index_semantics (vols : List RawVolume) (patch overlap : I3)
    (rand : Bool) (rs : ℕ → I3) (fS fL : ℕ → Vol) (l : List (ℕ → I3))
    (hO : OverlapOK patch overlap)
    (hrs : ValidDraws vols patch overlap rand rs)
    (hl : ∀ g ∈ l, ValidDraws vols patch overlap rand g) (idx : ℕ) :
    (dataLen (reinits (mkDataset vols patch overlap rand rs fS fL) l) ≤ idx →
      getitem (reinits (mkDataset vols patch overlap rand rs fS fL) l) idx
        = Except.error GetErr.indexError) ∧
    (idx < dataLen (reinits (mkDataset vols patch overlap rand rs fS fL) l) →
      ∃ di st, (reinits (mkDataset vols patch overlap rand rs fS fL)
          l).patchIndices.get? idx = some (di, st) ∧
        (Fits16 st → ∃ t : PatchResult,
          getitem (reinits (mkDataset vols patch overlap rand rs fS fL) l) idx
            = Except.ok t)) := by
  constructor
  · intro hge
    have hnone : (reinits (mkDataset vols patch overlap rand rs fS fL)
        l).patchIndices.get? idx = none :=
      List.get?_eq_none.mpr hge
    unfold getitem
    rw [hnone]
  · intro hlt
    have hsome : (reinits (mkDataset vols patch overlap rand rs fS fL)
        l).patchIndices.get? idx
        = some ((reinits (mkDataset vols patch overlap rand rs fS fL)
            l).patchIndices.get ⟨idx, hlt⟩) :=
      List.get?_eq_get hlt
    refine ⟨_, _, hsome, fun hfit => ?_⟩
    have hG := good_reinits l (mkDataset vols patch overlap rand rs fS fL)
      (@good_mk vols patch overlap rand rs fS fL hrs) hl
    obtain ⟨t, hok, -⟩ := getitem_ok_core hG hO hsome hfit
    exact ⟨t, hok⟩

/-- C8 counterexample: on `failDS`, index 0 is in range (`__len__ = 1`) but
`__getitem__(0)` does not return a patch tuple — it fails with the shape
assertion, because the stored start `-39992` exceeds the int16 range. -/
theorem C8_counterexample :
    0 < dataLen failDS ∧
    (∀ t : PatchResult, getitem failDS 0 ≠ Except.ok t) ∧
    getitem failDS 0 = Except.error GetErr.assertionError := by
  refine ⟨?_, ?_, failDS_getitem_eval⟩
  · rw [dataLen, failDS_patchIndices]
    norm_num
  · intro t hok
    rw [failDS_getitem_eval] at hok
    exact Except.noConfusion hok

/-- C8 witness: on the demonstration dataset (`__len__ = 8`), index 8 raises
the IndexError-equivalent and index 0 succeeds. -/
theorem C8_witness :
    (dataLen demoDS = 8) ∧
    getitem demoDS 8 = Except.error GetErr.indexError ∧
    (∃ t : PatchResult, getitem demoDS 0 = Except.ok t) := by
  have hO : OverlapOK (4, 4, 4) (0, 0, 0) := by norm_num [OverlapOK]
  have hV : ValidDraws demoVols (4, 4, 4) (0, 0, 0) false zeroDraw :=
    fun _ _ h => Bool.noConfusion h
  have hl : ∀ g ∈ ([] : List (ℕ → I3)),
      ValidDraws demoVols (4, 4, 4) (0, 0, 0) false g :=
    fun g hg => absurd hg (List.not_mem_nil g)
  have hlen : dataLen demoDS = 8 := by
    rw [dataLen, demoDS_patchIndices]
    rfl
  have h8 := (C8_index_semantics demoVols (4, 4, 4) (0, 0, 0) false zeroDraw
    constFill constFill [] hO hV hl 8).1
  have h0 := (C8_index_semantics demoVols (4, 4, 4) (0, 0, 0) false zeroDraw
    constFill constFill [] hO hV hl 0).2
  refine ⟨hlen, ?_, ?_⟩
  · exact h8 (show dataLen demoDS ≤ 8 from by rw [hlen])
  · obtain ⟨di, st, hsome, hfits⟩ :=
      h0 (show 0 < dataLen demoDS from by rw [hlen]; norm_num)
    have heq : (some ((0 : ℕ), ((-2 : ℤ), -2, -2)) : Option (ℕ × I3))
        = some (di, st) := by
      rw [← hsome]
      show some ((0 : ℕ), ((-2 : ℤ), -2, -2)) = demoDS.patchIndices.get? 0
      rw [demoDS_patchIndices]
      rfl
    injection heq with h2
    injection h2 with hdi hst
    subst hdi
    subst hst
    exact hfits (by norm_num [Fits16])

end MRI
